import Mathlib

/-!
Verification development for the HypeOn Copilot chat front end.

The definitions below are a shallow embedding of the TypeScript sources:
  * `src/unnamed/part_007` (`ChatService`: `normalizeTableData`, `chat`,
    `chatStream`) — the service actually used by the hook (its `chatStream`
    takes the full callback set);
  * `src/src/lib/rateLimiter.ts` (`RateLimiter`, `chatRateLimiter`);
  * `src/src/hooks/useHypeonChat.ts` (`sendMessage`, `sendMessageStream` and
    its stream callbacks);
  * `src/src/components/chatbot/ProgressIndicator.tsx` (dwell smoothing).

JavaScript numbers are modelled as rationals (`ℚ`), machine time as
milliseconds (`ℕ`), and dynamic JSON values as the inductive `JVal`.
`JSON.parse` is an external library call and is therefore a parameter of the
stream model.
-/

namespace Hypeon

/-! ## JavaScript value model -/

/-- Dynamic JSON-ish values as they appear in the wire payloads handled by
`normalizeTableData` (objects are modelled structurally by the record types
below, so `JVal` only needs scalars and arrays). -/
inductive JVal where
  | null : JVal
  | bool : Bool → JVal
  | num : ℚ → JVal
  | str : String → JVal
  | arr : List JVal → JVal

mutual

/-- JavaScript string coercion `String(v)`.  Numbers are rendered through
`toString`; the exact digits of a number never matter to the theorems below,
only that the rendering is non-empty and stable.  Arrays render as their
elements joined by commas with `null` elements becoming empty, which is the
JavaScript `Array.prototype.toString` behaviour. -/
def jstr : JVal → String
  | .null => "null"
  | .bool b => if b then "true" else "false"
  | .num q => toString q
  | .str s => s
  | .arr xs => jstrJoin xs

def jstrJoin : List JVal → String
  | [] => ""
  | [.null] => ""
  | [v] => jstr v
  | .null :: y :: rest => "," ++ jstrJoin (y :: rest)
  | v :: y :: rest => jstr v ++ "," ++ jstrJoin (y :: rest)

end

/-- JavaScript truthiness for the values of `JVal`. -/
def truthy : JVal → Bool
  | .null => false
  | .bool b => b
  | .num q => q != 0
  | .str s => s != ""
  | .arr _ => true

/-- `x || d` for an optional JavaScript value (absent fields are `none`). -/
def jsOr (v : Option JVal) (d : JVal) : JVal :=
  match v with
  | some x => if truthy x then x else d
  | none => d

/-- `x ? String(x) : undefined` — the conditional stringification pattern
used for the optional table fields. -/
def condStr (v : Option JVal) : Option String :=
  match v with
  | some x => if truthy x then some (jstr x) else none
  | none => none

/-- `s1 || s2` on an optional string-valued field. -/
def orElseStr (v : Option String) (d : String) : String :=
  match v with
  | some s => if s = "" then d else s
  | none => d

/-- The whitespace characters relevant to this wire format (JavaScript
`trim` also strips further Unicode space characters, which never occur
here). -/
def isWs (c : Char) : Bool :=
  c = ' ' || c = '\t' || c = '\n' || c = '\r'

/-- JavaScript `String.prototype.trim`. -/
def jsTrim (s : String) : String :=
  String.mk (((s.data.dropWhile isWs).reverse.dropWhile isWs).reverse)

/-! ## Table normalization (`ChatService.normalizeTableData`)

Raw wire shapes.  Fields typed `Option (List _)` model the
`Array.isArray(...)` tests: `some` is an array, `none` is anything that is
not an array (absent, `null`, or a non-array value, all of which the source
treats identically at those points). -/

/-- One element of a raw `columns` array as accessed by the source
(`col.name`, `col.type`, `col.unit`, `col.description`, `col.format`). -/
structure RawColumn where
  name : Option JVal := none
  type : Option JVal := none
  unit : Option JVal := none
  description : Option JVal := none
  format : Option JVal := none

/-- A raw table payload as accessed by `normalizeTableData`. -/
structure RawTable where
  id : Option JVal := none
  title : Option JVal := none
  description : Option JVal := none
  columns : Option (List RawColumn) := none
  headers : Option (List JVal) := none
  rows : Option (List JVal) := none
  footer : Option JVal := none

/-- Normalized column metadata (the `ColumnMetadata` output shape).  The
source leaves `col.type` untouched when truthy (`col.type || 'string'`), so
the normalized `type` is still a dynamic value. -/
structure NormColumn where
  name : String
  type : JVal
  unit : Option String
  description : Option String
  format : Option String

/-- Normalized `TableData`.  `footer := none` models `footer: null`
(the source always writes a string or `null` there). -/
structure NormTable where
  id : Option String
  title : String
  description : Option String
  columns : Option (List NormColumn)
  headers : Option (List String)
  rows : List (List String)
  footer : Option String

/-- `String(cell ?? '')`: `null` (and `undefined`) cells become the empty
string, everything else is string-coerced. -/
def normCell (c : JVal) : String :=
  match c with
  | .null => ""
  | v => jstr v

/-- `Array.isArray(row) ? row.map(cell => String(cell ?? '')) : []`. -/
def normRow (r : JVal) : List String :=
  match r with
  | .arr cells => cells.map normCell
  | _ => []

/-- The per-column normalization inside `normalizeTableData`. -/
def normColumn (c : RawColumn) : NormColumn :=
  { name := jstr (jsOr c.name (.str ""))
    type := jsOr c.type (.str "string")
    unit := condStr c.unit
    description := condStr c.description
    format := condStr c.format }

/-- The per-table body of `ChatService.normalizeTableData`
(`src/unnamed/part_007` lines 250-289): scalar fields, rows and footer are
normalized first, then `columns` (when an array), then `headers` (when an
array), and finally an empty `headers` list is substituted only when the
normalized table has no `columns` field. -/
def normalizeTable (t : RawTable) : NormTable :=
  let base : NormTable :=
    { id := condStr t.id
      title := jstr (jsOr t.title (.str ""))
      description := condStr t.description
      columns := none
      headers := none
      rows := (t.rows.getD []).map normRow
      footer := condStr t.footer }
  let withCols : NormTable :=
    match t.columns with
    | some cs => { base with columns := some (cs.map normColumn) }
    | none => base
  match t.headers with
  | some hs => { withCols with headers := some (hs.map normCell) }
  | none =>
    match withCols.columns with
    | some _ => withCols
    | none => { withCols with headers := some [] }

/-- `ChatService.normalizeTableData` over a list of raw tables.  The
`if (!Array.isArray(tables)) return []` guard is outside this model because
every call site in the claims passes an array. -/
def normalizeTableData (ts : List RawTable) : List NormTable :=
  ts.map normalizeTable

/-! Re-injection of a normalized table into the raw shape, used to state
idempotence (`normalize (normalize t)`).  A normalized table is a plain JSON
object again: strings stay strings, an absent optional field stays absent,
and the always-present `footer` is a string or JSON `null`. -/

/-- View a normalized column as a raw payload again. -/
def NormColumn.toRaw (c : NormColumn) : RawColumn :=
  { name := some (.str c.name)
    type := some c.type
    unit := c.unit.map .str
    description := c.description.map .str
    format := c.format.map .str }

/-- View a normalized table as a raw payload again. -/
def NormTable.toRaw (t : NormTable) : RawTable :=
  { id := t.id.map .str
    title := some (.str t.title)
    description := t.description.map .str
    columns := t.columns.map (fun cs => cs.map NormColumn.toRaw)
    headers := t.headers.map (fun hs => hs.map .str)
    rows := some (t.rows.map (fun r => .arr (r.map .str)))
    footer := match t.footer with
      | some f => some (.str f)
      | none => some .null }

/-! ### Round-trip lemmas for normalization -/

theorem jstr_str (s : String) : jstr (.str s) = s := rfl

theorem normCell_str (s : String) : normCell (.str s) = s := rfl

theorem truthy_str (s : String) : truthy (.str s) = (s != "") := rfl

theorem truthy_null : truthy .null = false := rfl

/-- A field that is stringified conditionally behaves well when every truthy
value it may hold has a non-empty string form.  This fails for values such
as `[]` (truthy, but `String([]) = ""`). -/
def condFieldOk (v : Option JVal) : Prop :=
  ∀ x, v = some x → truthy x = true → jstr x ≠ ""

/-- Raw columns whose conditionally-stringified fields are well behaved. -/
def GoodColumn (c : RawColumn) : Prop :=
  condFieldOk c.unit ∧ condFieldOk c.description ∧ condFieldOk c.format

/-- Raw tables whose conditionally-stringified fields are well behaved;
every payload whose `id`, `description`, `footer` and column
`unit`/`description`/`format` fields are strings, numbers, booleans, `null`
or absent satisfies this. -/
def GoodTable (t : RawTable) : Prop :=
  condFieldOk t.id ∧ condFieldOk t.description ∧ condFieldOk t.footer ∧
    ∀ cs, t.columns = some cs → ∀ c ∈ cs, GoodColumn c

theorem condStr_roundtrip (v : Option JVal) (h : condFieldOk v) :
    condStr ((condStr v).map .str) = condStr v := by
  cases v with
  | none => rfl
  | some x =>
    by_cases hx : truthy x = true
    · have hne : jstr x ≠ "" := h x rfl hx
      simp [condStr, hx, truthy_str, hne, jstr_str]
    · simp [condStr, hx]

theorem condStr_footer_roundtrip (v : Option JVal) (h : condFieldOk v) :
    condStr (match condStr v with
      | some f => some (.str f)
      | none => some .null) = condStr v := by
  cases v with
  | none => simp [condStr, truthy_null]
  | some x =>
    by_cases hx : truthy x = true
    · have hne : jstr x ≠ "" := h x rfl hx
      simp [condStr, hx, truthy_str, hne, jstr_str]
    · simp [condStr, hx, truthy_null]

theorem title_roundtrip (T : String) :
    jstr (jsOr (some (.str T)) (.str "")) = T := by
  by_cases hT : T = ""
  · simp [jsOr, truthy_str, hT, jstr_str]
  · simp [jsOr, truthy_str, hT, jstr_str]

theorem jsOr_truthy (w d : JVal) (h : truthy w = true) : jsOr (some w) d = w := by
  simp [jsOr, h]

theorem type_truthy (v : Option JVal) : truthy (jsOr v (.str "string")) = true := by
  cases v with
  | none => rfl
  | some x =>
    by_cases hx : truthy x = true
    · simp [jsOr, hx]
    · simp [jsOr, hx, truthy_str]


theorem row_roundtrip (r : List String) : (r.map .str).map normCell = r := by
  rw [List.map_map]
  have h : ∀ s ∈ r, (normCell ∘ JVal.str) s = id s := fun s _ => rfl
  rw [List.map_congr_left h, List.map_id]

theorem rowsList_roundtrip (R : List (List String)) :
    (R.map (fun r => JVal.arr (r.map .str))).map normRow = R := by
  rw [List.map_map]
  have h : ∀ r ∈ R, (normRow ∘ fun r => JVal.arr (r.map .str)) r = id r := by
    intro r _
    show (r.map .str).map normCell = r
    exact row_roundtrip r
  rw [List.map_congr_left h, List.map_id]

theorem normColumn_roundtrip (c : RawColumn) (h : GoodColumn c) :
    normColumn (NormColumn.toRaw (normColumn c)) = normColumn c := by
  obtain ⟨hu, hd, hf⟩ := h
  unfold normColumn NormColumn.toRaw
  simp only
  congr 1
  · exact title_roundtrip _
  · exact jsOr_truthy _ _ (type_truthy _)
  · exact condStr_roundtrip _ hu
  · exact condStr_roundtrip _ hd
  · exact condStr_roundtrip _ hf

theorem colsList_roundtrip (cs : List RawColumn) (h : ∀ c ∈ cs, GoodColumn c) :
    ((cs.map normColumn).map NormColumn.toRaw).map normColumn = cs.map normColumn := by
  rw [List.map_map, List.map_map]
  exact List.map_congr_left fun c hc => normColumn_roundtrip c (h c hc)

theorem normalizeTable_roundtrip (t : RawTable) (h : GoodTable t) :
    normalizeTable (NormTable.toRaw (normalizeTable t)) = normalizeTable t := by
  obtain ⟨hid, hdesc, hfoot, hcols⟩ := h
  cases hC : t.columns with
  | none =>
    cases hH : t.headers with
    | none =>
      simp only [normalizeTable, hC, hH, NormTable.toRaw, Option.map_some', Option.map_none']
      congr 1
      · exact condStr_roundtrip _ hid
      · exact title_roundtrip _
      · exact condStr_roundtrip _ hdesc
      · exact rowsList_roundtrip _
      · exact condStr_footer_roundtrip _ hfoot
    | some hs =>
      simp only [normalizeTable, hC, hH, NormTable.toRaw, Option.map_some', Option.map_none']
      congr 1
      · exact condStr_roundtrip _ hid
      · exact title_roundtrip _
      · exact condStr_roundtrip _ hdesc
      · exact congrArg some (row_roundtrip _)
      · exact rowsList_roundtrip _
      · exact condStr_footer_roundtrip _ hfoot
  | some cs =>
    cases hH : t.headers with
    | none =>
      simp only [normalizeTable, hC, hH, NormTable.toRaw, Option.map_some', Option.map_none']
      congr 1
      · exact condStr_roundtrip _ hid
      · exact title_roundtrip _
      · exact condStr_roundtrip _ hdesc
      · exact congrArg some (colsList_roundtrip cs (hcols cs hC))
      · exact rowsList_roundtrip _
      · exact condStr_footer_roundtrip _ hfoot
    | some hs =>
      simp only [normalizeTable, hC, hH, NormTable.toRaw, Option.map_some', Option.map_none']
      congr 1
      · exact condStr_roundtrip _ hid
      · exact title_roundtrip _
      · exact condStr_roundtrip _ hdesc
      · exact congrArg some (colsList_roundtrip cs (hcols cs hC))
      · exact congrArg some (row_roundtrip _)
      · exact rowsList_roundtrip _
      · exact condStr_footer_roundtrip _ hfoot

/-! ### Claims C4 and C5 -/

/-- A raw table whose `id` is the empty array: `[]` is truthy in JavaScript
but `String([]) = ""`, so the first normalization stores `id: ""` and the
second drops it. -/
def c4table : RawTable := { id := some (.arr []) }

/-- C4 counterexample: normalizing the output of `normalizeTableData` is not
always a no-op.  For the payload `[{id: []}]` the first pass yields
`id: ""` and the second pass drops the (falsy) empty-string id, so the two
results differ. -/
theorem claim4_counterexample :
    normalizeTableData ((normalizeTableData [c4table]).map NormTable.toRaw) ≠
      normalizeTableData [c4table] := by
  intro h
  have h1 : (normalizeTableData [c4table]).map NormTable.id = [some ""] := rfl
  have h2 : (normalizeTableData ((normalizeTableData [c4table]).map NormTable.toRaw)).map
      NormTable.id = [none] := rfl
  rw [h, h1] at h2
  simp at h2

/-- C4 (amended): `normalizeTableData` is idempotent for every raw payload
in which no conditionally-stringified optional field (`id`, `description`,
`footer`, column `unit`/`description`/`format`) holds a truthy value whose
string coercion is empty — in particular for all payloads whose such fields
are strings, numbers, booleans, `null` or absent. -/
theorem claim4_theorem (ts : List RawTable) (h : ∀ t ∈ ts, GoodTable t) :
    normalizeTableData ((normalizeTableData ts).map NormTable.toRaw) =
      normalizeTableData ts := by
  simp only [normalizeTableData, List.map_map]
  exact List.map_congr_left fun t ht => normalizeTable_roundtrip t (h t ht)

/-- Concrete witness table for the amended C4 theorem. -/
def c4goodTable : RawTable := { id := some (.str "t1"), title := some (.str "T") }

/-- C4 witness: the amended idempotence theorem applied to a concrete
well-behaved payload. -/
theorem claim4_witness :
    normalizeTableData ((normalizeTableData [c4goodTable]).map NormTable.toRaw) =
      normalizeTableData [c4goodTable] := by
  refine claim4_theorem [c4goodTable] ?_
  intro t ht
  simp only [List.mem_singleton] at ht
  subst ht
  refine ⟨?_, ?_, ?_, ?_⟩
  · intro x hx htr
    injection hx with hx
    subst hx
    decide
  · intro x hx
    cases hx
  · intro x hx
    cases hx
  · intro cs hcs
    cases hcs

/-- A raw table carrying both a typed `columns` array and a legacy
`headers` array. -/
def c5table : RawTable :=
  { columns := some [{ name := some (.str "Price"), type := some (.str "currency") }]
    headers := some [.str "Price"] }

/-- C5 counterexample: when both `columns` and `headers` are present the
normalized table keeps the columns *and* carries the headers through — the
headers are not omitted as the claim states. -/
theorem claim5_counterexample :
    (normalizeTable c5table).columns.isSome = true ∧
      (normalizeTable c5table).headers = some ["Price"] ∧
      (normalizeTable c5table).headers ≠ none := by
  refine ⟨rfl, rfl, ?_⟩
  intro h
  simp [normalizeTable, c5table] at h

/-- C5 (amended): a present typed `columns` array is carried through
normalized; a present legacy `headers` array is always carried through
(string-coerced), even alongside `columns`; headers are omitted only when a
headers array is absent and columns are present; and when neither is present
the normalized table has an empty headers list (never null/undefined). -/
theorem claim5_theorem (t : RawTable) :
    (∀ cs, t.columns = some cs → (normalizeTable t).columns = some (cs.map normColumn)) ∧
    (∀ hs, t.headers = some hs → (normalizeTable t).headers = some (hs.map normCell)) ∧
    (t.columns = none → t.headers = none → (normalizeTable t).headers = some []) ∧
    (∀ cs, t.columns = some cs → t.headers = none → (normalizeTable t).headers = none) := by
  refine ⟨?_, ?_, ?_, ?_⟩
  · intro cs hcs
    cases hH : t.headers <;> simp [normalizeTable, hcs, hH]
  · intro hs hhs
    cases hC : t.columns <;> simp [normalizeTable, hC, hhs]
  · intro hC hH
    simp [normalizeTable, hC, hH]
  · intro cs hcs hH
    simp [normalizeTable, hcs, hH]

/-- C5 witness: the amended theorem applied at concrete inputs — a table
with (empty) columns and no headers gets no headers field, and a table with
neither gets the empty header list. -/
theorem claim5_witness :
    (normalizeTable { columns := some [] }).headers = none ∧
      (normalizeTable ({} : RawTable)).headers = some [] :=
  ⟨(claim5_theorem { columns := some [] }).2.2.2 [] rfl rfl,
   (claim5_theorem {}).2.2.1 rfl rfl⟩

/-! ## Client-side rate limiter (`src/src/lib/rateLimiter.ts`)

The limiter state for one key is the recorded timestamp list; `Date.now()`
values are milliseconds.  `RateLimiter.isAllowed` filters the recorded
timestamps to the window, refuses when the window is full — leaving the
recorded list untouched — and otherwise records the current call. -/

structure RateLimitOptions where
  maxRequests : Nat
  windowMs : Nat

/-- `RateLimiter.isAllowed` (lines 24-40): returns whether the call is
allowed together with the recorded-timestamp list after the call. -/
def isAllowed (opts : RateLimitOptions) (requests : List Nat) (now : Nat) :
    Bool × List Nat :=
  let validRequests := requests.filter fun ts => now - ts < opts.windowMs
  if opts.maxRequests ≤ validRequests.length then (false, requests)
  else (true, validRequests ++ [now])

/-- `chatRateLimiter`: 5 requests per 60000 ms (lines 75-78). -/
def chatOpts : RateLimitOptions := { maxRequests := 5, windowMs := 60000 }

/-- Outcome of the rate-limit prologue of a service call. -/
structure GateResult where
  threw : Bool
  limiter : List Nat
  networkIssued : Bool

/-- The rate-limit prologue of `ChatService.chat` (`src/unnamed/part_007`
lines 334-339): when the limiter refuses, `chat` throws
`Rate limit exceeded ...` before any `fetch` and the recorded-timestamp list
is untouched; otherwise the call records itself and proceeds to the network
(which is external to this model). -/
def chatCallGate (requests : List Nat) (now : Nat) : GateResult :=
  if (isAllowed chatOpts requests now).1 then
    { threw := false, limiter := (isAllowed chatOpts requests now).2, networkIssued := true }
  else
    { threw := true, limiter := (isAllowed chatOpts requests now).2, networkIssued := false }

/-- A sequence of `chat()` invocations at the given `Date.now()` values:
each call runs the rate-limit gate; a refused call leaves the limiter
unchanged and issues no request.  Returns the per-call allowed flags and the
final limiter state. -/
def runChatCalls (requests : List Nat) : List Nat → List Bool × List Nat
  | [] => ([], requests)
  | t :: ts =>
    let (ok, requests2) := isAllowed chatOpts requests t
    let (rs, rf) := runChatCalls requests2 ts
    (ok :: rs, rf)

/-- `ChatService.chatStream` performs no rate-limit check: its body never
reads or writes any limiter, so a streaming call carries any limiter state
through unchanged and never throws a rate-limit error.  (The stream
processing itself is modelled separately below.) -/
def chatStreamGate (requests : List Nat) : GateResult :=
  { threw := false, limiter := requests, networkIssued := true }

/-- Modelled from the spec (amended form of C10): whether a `chat()` call is
admitted, counting only previously *allowed* calls inside the 60 s window. -/
def specAllowed (priorAllowed : List Nat) (now : Nat) : Bool :=
  decide ((priorAllowed.filter fun t => now - t < 60000).length < 5)

/-- Modelled from the spec (amended form of C10): the admitted/refused flags
of a call sequence when refusals are decided by the count of previously
allowed calls within the window. -/
def specRun (priorAllowed : List Nat) : List Nat → List Bool
  | [] => []
  | t :: ts =>
    let ok := specAllowed priorAllowed t
    ok :: specRun (if ok then priorAllowed ++ [t] else priorAllowed) ts

/-! ### The C10 refinement proof -/

theorem filter_window_mono (l : List Nat) (n1 n2 : Nat) (h : n1 ≤ n2) :
    (l.filter fun ts => n1 - ts < 60000).filter (fun ts => n2 - ts < 60000) =
      l.filter fun ts => n2 - ts < 60000 := by
  rw [List.filter_filter]
  apply List.filter_congr
  intro ts _
  by_cases h2 : n2 - ts < 60000
  · have h1 : n1 - ts < 60000 := lt_of_le_of_lt (Nat.sub_le_sub_right h ts) h2
    simp [h1, h2]
  · simp [h2]

theorem chatOpts_max : chatOpts.maxRequests = 5 := rfl

theorem chatOpts_win : chatOpts.windowMs = 60000 := rfl

theorem isAllowed_full {opts : RateLimitOptions} {reqs : List Nat} {now : Nat}
    (h : opts.maxRequests ≤ ((reqs.filter fun ts => now - ts < opts.windowMs)).length) :
    isAllowed opts reqs now = (false, reqs) := by
  simp [isAllowed, h]

theorem isAllowed_ok {opts : RateLimitOptions} {reqs : List Nat} {now : Nat}
    (h : ¬ opts.maxRequests ≤ ((reqs.filter fun ts => now - ts < opts.windowMs)).length) :
    isAllowed opts reqs now =
      (true, (reqs.filter fun ts => now - ts < opts.windowMs) ++ [now]) := by
  simp [isAllowed, h]

theorem runChatCalls_eq_spec (times : List Nat) :
    ∀ (requests priorAllowed : List Nat) (lb : Nat),
      (∀ t ∈ times, lb ≤ t) → times.Pairwise (· ≤ ·) →
      (∀ n2, lb ≤ n2 →
        (requests.filter fun ts => n2 - ts < 60000) =
          (priorAllowed.filter fun ts => n2 - ts < 60000)) →
      (runChatCalls requests times).1 = specRun priorAllowed times := by
  induction times with
  | nil => intro _ _ _ _ _ _; rfl
  | cons t ts ih =>
    intro requests priorAllowed lb hlb hpw hinv
    have hlbt : lb ≤ t := hlb t (List.mem_cons_self t ts)
    have hfil := hinv t hlbt
    have hts : ∀ x ∈ ts, t ≤ x := (List.pairwise_cons.mp hpw).1
    have hpw2 : ts.Pairwise (· ≤ ·) := (List.pairwise_cons.mp hpw).2
    simp only [runChatCalls, specRun, specAllowed]
    by_cases hfull : 5 ≤ ((priorAllowed.filter fun ts => t - ts < 60000)).length
    · have hfullR : chatOpts.maxRequests ≤
          ((requests.filter fun ts => t - ts < chatOpts.windowMs)).length := by
        simp only [chatOpts_max, chatOpts_win]
        rw [hfil]; exact hfull
      have hdec : decide ((priorAllowed.filter fun ts => t - ts < 60000).length < 5) = false := by
        simp [not_lt.mpr hfull]
      rw [isAllowed_full hfullR]
      simp only [hdec, Bool.false_eq_true, if_false]
      rw [ih requests priorAllowed t hts hpw2 fun n2 hn2 =>
        hinv n2 (le_trans hlbt hn2)]
    · have hfullR : ¬ chatOpts.maxRequests ≤
          ((requests.filter fun ts => t - ts < chatOpts.windowMs)).length := by
        simp only [chatOpts_max, chatOpts_win]
        rw [hfil]; exact hfull
      have hdec : decide ((priorAllowed.filter fun ts => t - ts < 60000).length < 5) = true := by
        simp [not_le.mp hfull]
      rw [isAllowed_ok hfullR]
      simp only [hdec, if_true, chatOpts_win]
      have hinv2 : ∀ n2, t ≤ n2 →
          (((requests.filter fun ts => t - ts < 60000) ++ [t]).filter
              fun ts => n2 - ts < 60000) =
            ((priorAllowed ++ [t]).filter fun ts => n2 - ts < 60000) := by
        intro n2 hn2
        rw [List.filter_append, List.filter_append, filter_window_mono requests t n2 hn2,
          hinv n2 (le_trans hlbt hn2)]
      rw [ih _ _ t hts hpw2 hinv2]

theorem isAllowed_false_snd {opts : RateLimitOptions} {reqs : List Nat} {now : Nat}
    (h : (isAllowed opts reqs now).1 = false) : (isAllowed opts reqs now).2 = reqs := by
  by_cases hc : opts.maxRequests ≤ ((reqs.filter fun ts => now - ts < opts.windowMs)).length
  · rw [isAllowed_full hc]
  · rw [isAllowed_ok hc] at h
    simp at h

/-- The concrete `Date.now()` values of eleven `chat()` invocations: five
allowed calls at t=0, five refused calls at t=10s..50s, and one more call at
t=61s. -/
def c10times : List Nat :=
  [0, 0, 0, 0, 0, 10000, 20000, 30000, 40000, 50000, 61000]

/-- C10 counterexample: at t=61000 five prior `chat()` calls (the refused
ones at 10s..50s) lie within the preceding 60 s, yet the call is allowed —
refused calls are never recorded by the limiter, so the claim "a chat() call
made when 5 or more prior chat() calls occurred within the preceding 60
seconds throws" is false as stated. -/
theorem claim10_counterexample :
    (runChatCalls [] c10times).1 =
      [true, true, true, true, true, false, false, false, false, false, true] ∧
      ((c10times.take 10).filter fun t => 61000 - t < 60000).length = 5 := by
  constructor
  · rfl
  · rfl

/-- C10 (amended): the non-streaming `chat()` enforces a client-side rate
limit the spec never mentions — a call is refused exactly when 5 or more
prior *allowed* `chat()` calls occurred within the preceding 60 seconds
(refused calls are not counted); a refused call throws before any network
request is issued and leaves the limiter state unchanged; the streaming
`chatStream` performs no such check. -/
theorem claim10_theorem :
    (∀ times : List Nat, times.Pairwise (· ≤ ·) →
        (runChatCalls [] times).1 = specRun [] times) ∧
      (∀ requests now, (chatCallGate requests now).threw = true →
        (chatCallGate requests now).limiter = requests ∧
          (chatCallGate requests now).networkIssued = false) ∧
      (∀ requests, (chatStreamGate requests).threw = false ∧
        (chatStreamGate requests).limiter = requests) := by
  refine ⟨?_, ?_, ?_⟩
  · intro times hpw
    exact runChatCalls_eq_spec times [] [] 0 (fun t _ => Nat.zero_le t) hpw
      (fun n2 _ => rfl)
  · intro requests now h
    by_cases hok : (isAllowed chatOpts requests now).1 = true
    · simp [chatCallGate, hok] at h
    · have hfalse : (isAllowed chatOpts requests now).1 = false :=
        Bool.not_eq_true _ ▸ eq_false_of_ne_true hok
      simp only [chatCallGate, hfalse, Bool.false_eq_true, if_false]
      exact ⟨isAllowed_false_snd hfalse, trivial⟩
  · intro requests
    exact ⟨rfl, rfl⟩

/-- C10 witness: the amended theorem applied at concrete inputs — a short
sorted call sequence matches the spec-side run, and a refused call (full
window) leaves the limiter untouched without issuing a request. -/
theorem claim10_witness :
    (runChatCalls [] [0, 30000]).1 = specRun [] [0, 30000] ∧
      (chatCallGate [0, 0, 0, 0, 0] 30000).limiter = [0, 0, 0, 0, 0] ∧
      (chatCallGate [0, 0, 0, 0, 0] 30000).networkIssued = false :=
  ⟨claim10_theorem.1 [0, 30000] (by decide),
   (claim10_theorem.2.1 [0, 0, 0, 0, 0] 30000 (by decide)).1,
   (claim10_theorem.2.1 [0, 0, 0, 0, 0] 30000 (by decide)).2⟩

/-! ## SSE frame assembly (`ChatService.chatStream`, `src/unnamed/part_007`
lines 490-498 and 702-727)

The read loop appends each decoded chunk to a buffer, splits the buffer on
the double-newline delimiter, keeps the trailing element as the new buffer
and processes the complete segments.  Splitting is modelled on character
lists with the concrete separator. -/

/-- `buffer.split('\n\n')` on character lists: greedy left-to-right
matching of the two-newline separator, exactly as the JavaScript
`String.prototype.split` with a string separator. -/
def splitFramesGo : List Char → List Char → List (List Char)
  | cur, [] => [cur]
  | cur, [c] => [cur ++ [c]]
  | cur, c :: d :: rest =>
    if c = '\n' ∧ d = '\n' then cur :: splitFramesGo [] rest
    else splitFramesGo (cur ++ [c]) (d :: rest)

/-- The segments of a buffer, i.e. `buffer.split('\n\n')`. -/
def frames (s : List Char) : List (List Char) := splitFramesGo [] s

theorem splitFramesGo_ne_nil (cur s : List Char) : splitFramesGo cur s ≠ [] := by
  induction cur, s using splitFramesGo.induct with
  | case1 cur => simp [splitFramesGo]
  | case2 cur c => simp [splitFramesGo]
  | case3 cur c d rest hnn ih => simp [splitFramesGo, hnn]
  | case4 cur c d rest hnn ih => simpa [splitFramesGo, hnn] using ih

theorem frames_ne_nil (s : List Char) : frames s ≠ [] := splitFramesGo_ne_nil [] s

theorem splitFramesGo_cons_head : ∀ (cur s : List Char),
    splitFramesGo cur s = (cur ++ (frames s).headI) :: (frames s).tail
  | cur, [] => by simp [splitFramesGo, frames]
  | cur, [c] => by simp [splitFramesGo, frames]
  | cur, c :: d :: rest => by
    by_cases hnn : c = '\n' ∧ d = '\n'
    · simp [splitFramesGo, frames, hnn]
    · rw [show splitFramesGo cur (c :: d :: rest) =
          splitFramesGo (cur ++ [c]) (d :: rest) from by simp [splitFramesGo, hnn]]
      rw [show frames (c :: d :: rest) =
          splitFramesGo ([] ++ [c]) (d :: rest) from by simp [frames, splitFramesGo, hnn]]
      rw [splitFramesGo_cons_head (cur ++ [c]) (d :: rest),
        splitFramesGo_cons_head ([] ++ [c]) (d :: rest)]
      simp
  termination_by cur s => s.length

/-- The last element of a list with a default: models `lines.pop() || ...`
(JavaScript `pop` on the split result, which is always non-empty). -/
def lastD {α : Type} (d : α) : List α → α
  | [] => d
  | [x] => x
  | _ :: y :: rest => lastD d (y :: rest)

/-- All elements except the last: the complete segments iterated by the
read loop after `pop` removed the trailing partial segment. -/
def dropLastL {α : Type} : List α → List α
  | [] => []
  | [_] => []
  | x :: y :: rest => x :: dropLastL (y :: rest)

theorem lastD_cons_of_ne_nil {α : Type} (d : α) (x : α) (l : List α) (h : l ≠ []) :
    lastD d (x :: l) = lastD d l := by
  cases l with
  | nil => exact absurd rfl h
  | cons y rest => rfl

theorem dropLastL_cons_of_ne_nil {α : Type} (x : α) (l : List α) (h : l ≠ []) :
    dropLastL (x :: l) = x :: dropLastL l := by
  cases l with
  | nil => exact absurd rfl h
  | cons y rest => rfl

theorem lastD_append_of_ne_nil {α : Type} (d : α) (X Y : List α) (h : Y ≠ []) :
    lastD d (X ++ Y) = lastD d Y := by
  induction X with
  | nil => rfl
  | cons x xs ih =>
    rw [List.cons_append, lastD_cons_of_ne_nil d x (xs ++ Y) (by simp [h]), ih]

theorem dropLastL_append_of_ne_nil {α : Type} (X Y : List α) (h : Y ≠ []) :
    dropLastL (X ++ Y) = X ++ dropLastL Y := by
  induction X with
  | nil => rfl
  | cons x xs ih =>
    rw [List.cons_append, dropLastL_cons_of_ne_nil x (xs ++ Y) (by simp [h]), ih]
    simp

/-- Rebuilding a buffer from its segments (inverse of `frames`). -/
def joinFrames : List (List Char) → List Char
  | [] => []
  | [x] => x
  | x :: y :: rest => x ++ '\n' :: '\n' :: joinFrames (y :: rest)

theorem joinFrames_splitFramesGo : ∀ (cur s : List Char),
    joinFrames (splitFramesGo cur s) = cur ++ s
  | cur, [] => by simp [splitFramesGo, joinFrames]
  | cur, [c] => by simp [splitFramesGo, joinFrames]
  | cur, c :: d :: rest => by
    by_cases hnn : c = '\n' ∧ d = '\n'
    · obtain ⟨y, ys, hL⟩ := List.exists_cons_of_ne_nil (splitFramesGo_ne_nil [] rest)
      rw [show splitFramesGo cur (c :: d :: rest) = cur :: splitFramesGo [] rest from by
        simp [splitFramesGo, hnn]]
      rw [hL, joinFrames, ← hL, joinFrames_splitFramesGo [] rest]
      simp [hnn.1, hnn.2]
    · rw [show splitFramesGo cur (c :: d :: rest) =
          splitFramesGo (cur ++ [c]) (d :: rest) from by simp [splitFramesGo, hnn]]
      rw [joinFrames_splitFramesGo (cur ++ [c]) (d :: rest)]
      simp
  termination_by cur s => s.length

theorem frames_singleton {s h : List Char} (hs : frames s = [h]) : h = s := by
  have := joinFrames_splitFramesGo [] s
  rw [show splitFramesGo [] s = frames s from rfl, hs] at this
  simpa [joinFrames] using this

/-- Splitting a concatenation: the read loop may re-split
`lastSegment ++ chunk` from scratch and still see exactly the frames of the
whole stream — including a separator that straddles the boundary. -/
theorem frames_append : ∀ (a b : List Char),
    frames (a ++ b) = dropLastL (frames a) ++ frames (lastD [] (frames a) ++ b)
  | [], b => by simp [frames, splitFramesGo, lastD, dropLastL]
  | [c], b => by
    rw [show frames [c] = [[c]] from by simp [frames, splitFramesGo]]
    simp [lastD, dropLastL]
  | c :: d :: rest, b => by
    by_cases hnn : c = '\n' ∧ d = '\n'
    · rw [show frames (c :: d :: rest) = [] :: frames rest from by
        simp [frames, splitFramesGo, hnn]]
      rw [show (c :: d :: rest) ++ b = c :: d :: (rest ++ b) from rfl]
      rw [show frames (c :: d :: (rest ++ b)) = [] :: frames (rest ++ b) from by
        simp [frames, splitFramesGo, hnn]]
      rw [frames_append rest b]
      rw [dropLastL_cons_of_ne_nil _ _ (frames_ne_nil rest),
        lastD_cons_of_ne_nil _ _ _ (frames_ne_nil rest)]
      rfl
    · have hmain : frames (c :: d :: rest) =
          ([c] ++ (frames (d :: rest)).headI) :: (frames (d :: rest)).tail := by
        rw [show frames (c :: d :: rest) = splitFramesGo ([] ++ [c]) (d :: rest) from by
          simp [frames, splitFramesGo, hnn]]
        exact splitFramesGo_cons_head _ _
      have hmainB : frames ((c :: d :: rest) ++ b) =
          ([c] ++ (frames ((d :: rest) ++ b)).headI) :: (frames ((d :: rest) ++ b)).tail := by
        rw [show (c :: d :: rest) ++ b = c :: d :: (rest ++ b) from rfl]
        rw [show frames (c :: d :: (rest ++ b)) =
            splitFramesGo ([] ++ [c]) (d :: (rest ++ b)) from by
          simp [frames, splitFramesGo, hnn]]
        rw [splitFramesGo_cons_head]
        rfl
      obtain ⟨h0, t, hF⟩ := List.exists_cons_of_ne_nil (frames_ne_nil (d :: rest))
      have hIH := frames_append (d :: rest) b
      cases t with
      | nil =>
        have hsing : h0 = d :: rest := frames_singleton hF
        rw [hmainB, hmain, hF]
        simp only [List.headI, List.tail, hsing]
        rw [show frames ((d :: rest) ++ b) = frames (d :: (rest ++ b)) from rfl]
        simp only [dropLastL, lastD, List.nil_append]
        rw [show ([c] ++ (d :: rest)) ++ b = c :: d :: (rest ++ b) from by simp]
        rw [show frames (c :: d :: (rest ++ b)) =
            splitFramesGo ([] ++ [c]) (d :: (rest ++ b)) from by
          simp [frames, splitFramesGo, hnn]]
        rw [splitFramesGo_cons_head ([] ++ [c]) (d :: (rest ++ b))]
        rfl
      | cons t0 ts =>
        rw [hmainB, hmain, hF]
        rw [hIH, hF]
        simp only [List.headI, List.tail]
        rw [dropLastL_cons_of_ne_nil h0 (t0 :: ts) (by simp),
          dropLastL_cons_of_ne_nil ([c] ++ h0) (t0 :: ts) (by simp),
          lastD_cons_of_ne_nil [] h0 (t0 :: ts) (by simp),
          lastD_cons_of_ne_nil [] ([c] ++ h0) (t0 :: ts) (by simp)]
        rfl
  termination_by a b => a.length

/-! ## Typed stream events and the dispatch switch

`JSON.parse` is an external library call, so the parsed value is supplied by
a `parse : String → Option SSEData` parameter: `none` models a parse throw,
which the per-frame `try/catch` swallows (`console.warn`) before the loop
continues. -/

/-- A research plan payload (`research_plan` event, camel-cased by the
service). -/
structure ResearchPlan where
  searchTerms : List String
  objectives : List String
  dataPoints : List String
  sources : List String
  timeSensitivity : Option String
  geographicScope : Option String
  note : Option String

/-- The fields of a parsed `data:` frame that the `chatStream` switch
reads.  Absent JSON fields are `none`. -/
structure SSEData where
  type : String := ""
  stage : Option String := none
  progressVal : Option ℚ := none
  message : Option String := none
  content : Option String := none
  doneFlag : Option Bool := none
  success : Option Bool := none
  latencyMs : Option Nat := none
  errorMsg : Option String := none
  code : Option String := none
  table : Option RawTable := none
  insight : Option JVal := none
  artifact : Option JVal := none
  searchTerms : Option (List String) := none
  objectives : Option (List String) := none
  dataPoints : Option (List String) := none
  sources : Option (List String) := none
  timeSensitivity : Option String := none
  geographicScope : Option String := none
  note : Option String := none
  sessionId : Option String := none
  tables : Option (List RawTable) := none
  explanation : Option String := none
  insights : Option (List JVal) := none
  artifacts : Option (List JVal) := none
  metadata : Option JVal := none
  sectionTitles : Option JVal := none
  stageIndex : Option Nat := none
  totalStages : Option Nat := none

/-- One callback invocation made by `chatStream` (the order of the list of
these is the order of invocation). -/
inductive Ev where
  | stageStart (stage : String) (stageIndex totalStages : Nat)
  | progressEv (stage : String) (value : ℚ) (message : String)
  | chunk (content : String) (done : Bool)
  | stageComplete (stage : String) (success : Bool) (latencyMs : Option Nat)
      (error : Option String)
  | tableEv (t : NormTable)
  | insightEv (v : JVal)
  | artifactEv (v : JVal)
  | researchPlanEv (p : ResearchPlan)
  | complete (sessionId : Option String) (tables : Option (List NormTable))
      (explanation : Option String) (insights : List JVal) (artifacts : List JVal)
      (metadata : Option JVal) (sectionTitles : Option JVal)
  | errorCb (msg : String) (code : Option String)

/-- `data.explanation || null`. -/
def orNullStr (v : Option String) : Option String :=
  match v with
  | some s => if s = "" then none else some s
  | none => none

/-- `data.message?.trim() || 'Processing...'`. -/
def trimOrProcessing (v : Option String) : String :=
  match v with
  | some m => if jsTrim m = "" then "Processing..." else jsTrim m
  | none => "Processing..."

/-- The `switch (data.type)` of `ChatService.chatStream`
(`src/unnamed/part_007` lines 526-693), with every callback provided except
that `onError` presence is the `hasOnError` flag.  In the `error` case
without `onError` the source throws after calling `onProgress`, but that
throw lands in the enclosing per-frame `catch` (which only warns), so the
loop continues either way.  In the `done` case the source merges
`sectionTitles` into the metadata object before calling `onComplete`; the
event carries both parts. -/
def dispatchData (hasOnError : Bool) (d : SSEData) : List Ev :=
  if d.type = "stage_start" then
    [.stageStart (orElseStr d.stage "unknown") (d.stageIndex.getD 0) (d.totalStages.getD 1)]
      ++ match d.message with
        | some m => if m = "" then [] else [.progressEv (orElseStr d.stage "unknown") 0 m]
        | none => []
  else if d.type = "progress" then
    [.progressEv (orElseStr d.stage "unknown") (d.progressVal.getD 0)
      (trimOrProcessing d.message)]
  else if d.type = "token" ∨ d.type = "chunk" then
    let tokenContent := d.content.getD ""
    let isDone := d.doneFlag.getD false
    if tokenContent ≠ "" ∨ isDone = true then [.chunk tokenContent isDone] else []
  else if d.type = "stage_complete" then
    [.stageComplete (orElseStr d.stage "unknown") (d.success != some false)
      d.latencyMs d.errorMsg]
  else if d.type = "table" then
    match d.table with
    | some t => [.tableEv (normalizeTable t)]
    | none => []
  else if d.type = "insight" then
    match d.insight with
    | some v => if truthy v then [.insightEv v] else []
    | none => []
  else if d.type = "artifact" then
    match d.artifact with
    | some v => if truthy v then [.artifactEv v] else []
    | none => []
  else if d.type = "research_plan" then
    [.researchPlanEv
      { searchTerms := d.searchTerms.getD []
        objectives := d.objectives.getD []
        dataPoints := d.dataPoints.getD []
        sources := d.sources.getD []
        timeSensitivity := d.timeSensitivity
        geographicScope := d.geographicScope
        note := d.note }]
  else if d.type = "done" then
    [.progressEv "done" 1 "Complete",
     .complete d.sessionId (d.tables.map normalizeTableData) (orNullStr d.explanation)
       (d.insights.getD []) (d.artifacts.getD []) d.metadata d.sectionTitles]
  else if d.type = "error" then
    let msg := orElseStr d.errorMsg "Unknown error"
    if hasOnError then [.errorCb msg d.code]
    else [.progressEv "error" 0 ("Error: " ++ msg)]
  else []

/-- `line.startsWith('data: ')` combined with `line.slice(6)`. -/
def dataPayload : List Char → Option (List Char)
  | 'd' :: 'a' :: 't' :: 'a' :: ':' :: ' ' :: rest => some rest
  | _ => none

/-- Events dispatched for one complete segment of the stream. -/
def frameEvents (hasOnError : Bool) (parse : String → Option SSEData)
    (line : List Char) : List Ev :=
  match dataPayload line with
  | some payload =>
    match parse (String.mk payload) with
    | some d => dispatchData hasOnError d
    | none => []
  | none => []

/-- The chunk read loop (`src/unnamed/part_007` lines 490-498 and 509-699):
append the chunk to the buffer, split on the double-newline delimiter, keep
the trailing element as the new buffer and dispatch the complete segments in
order. -/
def streamLoop (hasOnError : Bool) (parse : String → Option SSEData) :
    List Char → List (List Char) → List Ev × List Char
  | buffer, [] => ([], buffer)
  | buffer, ch :: rest =>
    let parts := frames (buffer ++ ch)
    let evs := (dropLastL parts).flatMap (frameEvents hasOnError parse)
    let (evs2, buf) := streamLoop hasOnError parse (lastD [] parts) rest
    (evs ++ evs2, buf)

/-- The `// Process remaining buffer` block after the loop
(`src/unnamed/part_007` lines 702-727): the final pending fragment is
parsed once, but only a `done` frame is dispatched (to `onComplete`, with no
accompanying progress event); every other frame type is dropped. -/
def finalBufferEvents (parse : String → Option SSEData) (buffer : List Char) : List Ev :=
  match dataPayload buffer with
  | some payload =>
    match parse (String.mk payload) with
    | some d =>
      if d.type = "done" then
        [.complete d.sessionId (d.tables.map normalizeTableData) (orNullStr d.explanation)
          (d.insights.getD []) (d.artifacts.getD []) d.metadata d.sectionTitles]
      else []
    | none => []
  | none => []

/-- All callback invocations of one `chatStream` call, for a given sequence
of decoded byte chunks. -/
def chatStreamEvents (hasOnError : Bool) (parse : String → Option SSEData)
    (chunks : List String) : List Ev :=
  let (evs, buf) := streamLoop hasOnError parse [] (chunks.map String.data)
  evs ++ finalBufferEvents parse buf

/-- Modelled from the spec (amended form of C6): the dispatched events as a
function of the concatenated stream text alone — every complete segment is
dispatched as a frame, and the final pending fragment is parsed once at
stream end with only a `done` frame dispatched. -/
def chatStreamEventsSpec (hasOnError : Bool) (parse : String → Option SSEData)
    (chunks : List String) : List Ev :=
  let segs := frames (chunks.map String.data).flatten
  (dropLastL segs).flatMap (frameEvents hasOnError parse)
    ++ finalBufferEvents parse (lastD [] segs)

/-! ### Chunk-boundary invariance of the read loop -/

/-- A character list with no double-newline separator inside. -/
def noSep : List Char → Bool
  | [] => true
  | [_] => true
  | c :: d :: rest => !(c = '\n' && d = '\n') && noSep (d :: rest)

/-- Whether a character list ends in a newline. -/
def endsNl : List Char → Bool
  | [] => false
  | [c] => c = '\n'
  | _ :: d :: rest => endsNl (d :: rest)

theorem frames_of_noSep : ∀ (s : List Char), noSep s = true → frames s = [s]
  | [], _ => rfl
  | [c], _ => by simp [frames, splitFramesGo]
  | c :: d :: rest, h => by
    have hns : noSep (d :: rest) = true := by
      have h2 := h
      simp only [noSep, Bool.and_eq_true] at h2
      exact h2.2
    have hnn : ¬(c = '\n' ∧ d = '\n') := by
      intro hcd
      have h2 := h
      rw [show noSep (c :: d :: rest) = (!(c = '\n' && d = '\n') && noSep (d :: rest))
        from rfl] at h2
      rw [hcd.1, hcd.2] at h2
      simp at h2
    rw [show frames (c :: d :: rest) = splitFramesGo ([] ++ [c]) (d :: rest) from by
      simp [frames, splitFramesGo, hnn]]
    rw [splitFramesGo_cons_head, frames_of_noSep (d :: rest) hns]
    simp

theorem endsNl_snoc : ∀ (l : List Char) (c : Char),
    endsNl (l ++ [c]) = decide (c = '\n')
  | [], c => by simp [endsNl]
  | [a], c => by simp [endsNl]
  | a :: b :: rest, c => by
    show endsNl ((b :: rest) ++ [c]) = decide (c = '\n')
    exact endsNl_snoc (b :: rest) c

theorem noSep_snoc : ∀ (l : List Char) (c : Char), noSep l = true →
    (endsNl l = true → c ≠ '\n') → noSep (l ++ [c]) = true
  | [], c, _, _ => rfl
  | [a], c, _, hl => by
    have hac : ¬(a = '\n' ∧ c = '\n') := fun hcd => hl (by simp [endsNl, hcd.1]) hcd.2
    show (!(a = '\n' && c = '\n') && noSep [c]) = true
    have h1 : (a = '\n' && c = '\n') = false := by
      by_cases ha : a = '\n'
      · by_cases hc : c = '\n'
        · exact absurd ⟨ha, hc⟩ hac
        · simp [hc]
      · simp [ha]
    rw [h1]
    rfl
  | a :: b :: rest, c, h, hl => by
    have h2 := h
    simp only [noSep, Bool.and_eq_true] at h2
    have hrec := noSep_snoc (b :: rest) c h2.2 (by
      intro he
      exact hl (by simpa [endsNl] using he))
    show (!(a = '\n' && b = '\n') && noSep ((b :: rest) ++ [c])) = true
    rw [hrec]
    simpa using h2.1

theorem noSep_lastD : ∀ (cur s : List Char), noSep cur = true →
    (∀ c s0, s = c :: s0 → endsNl cur = true → c ≠ '\n') →
    noSep (lastD [] (splitFramesGo cur s)) = true
  | cur, [], h, _ => by simpa [splitFramesGo, lastD] using h
  | cur, [c], h, hfirst => by
    simp only [splitFramesGo, lastD]
    exact noSep_snoc cur c h (hfirst c [] rfl)
  | cur, c :: d :: rest, h, hfirst => by
    by_cases hnn : c = '\n' ∧ d = '\n'
    · rw [show splitFramesGo cur (c :: d :: rest) = cur :: splitFramesGo [] rest from by
        simp [splitFramesGo, hnn]]
      rw [lastD_cons_of_ne_nil [] cur _ (splitFramesGo_ne_nil [] rest)]
      exact noSep_lastD [] rest rfl (by intro c0 s0 _ he; simp [endsNl] at he)
    · rw [show splitFramesGo cur (c :: d :: rest) =
          splitFramesGo (cur ++ [c]) (d :: rest) from by simp [splitFramesGo, hnn]]
      refine noSep_lastD (cur ++ [c]) (d :: rest)
        (noSep_snoc cur c h (hfirst c (d :: rest) rfl)) ?_
      intro c0 s0 hs0 he
      injection hs0 with hc0 _
      subst hc0
      rw [endsNl_snoc] at he
      intro hd
      exact hnn ⟨by simpa using he, hd⟩
  termination_by cur s => s.length

theorem noSep_lastD_frames (s : List Char) : noSep (lastD [] (frames s)) = true :=
  noSep_lastD [] s rfl (by intro c s0 _ he; simp [endsNl] at he)

/-- The read loop over any chunk sequence dispatches exactly the frames of
the concatenated stream, and ends holding its trailing partial segment. -/
theorem streamLoop_eq (hasOnError : Bool) (parse : String → Option SSEData) :
    ∀ (chunks : List (List Char)) (buffer : List Char), noSep buffer = true →
      streamLoop hasOnError parse buffer chunks =
        ((dropLastL (frames (buffer ++ chunks.flatten))).flatMap
            (frameEvents hasOnError parse),
          lastD [] (frames (buffer ++ chunks.flatten))) := by
  intro chunks
  induction chunks with
  | nil =>
    intro buffer hbuf
    rw [show List.flatten ([] : List (List Char)) = [] from rfl, List.append_nil,
      frames_of_noSep buffer hbuf]
    rfl
  | cons ch rest ih =>
    intro buffer hbuf
    show ((dropLastL (frames (buffer ++ ch))).flatMap (frameEvents hasOnError parse)
        ++ (streamLoop hasOnError parse (lastD [] (frames (buffer ++ ch))) rest).1,
      (streamLoop hasOnError parse (lastD [] (frames (buffer ++ ch))) rest).2) = _
    rw [ih (lastD [] (frames (buffer ++ ch))) (noSep_lastD_frames _)]
    rw [show (ch :: rest).flatten = ch ++ rest.flatten from rfl, ← List.append_assoc]
    rw [frames_append (buffer ++ ch) rest.flatten]
    rw [dropLastL_append_of_ne_nil _ _ (frames_ne_nil _),
      lastD_append_of_ne_nil [] _ _ (frames_ne_nil _)]
    rw [List.flatMap_append]

/-! ### Claim C6 -/

/-- A concrete stand-in for `JSON.parse` recognising one token frame. -/
def c6parse : String → Option SSEData := fun s =>
  if s = "tok" then some { type := "token", content := some "x" } else none

/-- C6 counterexample: a final pending fragment is *not* dispatched like any
other frame.  The complete token frame is dispatched, but the same frame
left pending at stream close (no trailing delimiter) is parsed and then
dropped, because the end-of-stream handler only dispatches `done` frames. -/
theorem claim6_counterexample :
    chatStreamEvents true c6parse ["data: tok\n\n"] = [.chunk "x" false] ∧
      chatStreamEvents true c6parse ["data: tok"] = [] :=
  ⟨rfl, rfl⟩

/-- C6 (amended): frames are assembled by buffering on the double-newline
delimiter and only complete `data: <json>` frames are parsed and dispatched;
a trailing partial frame is kept in the buffer and retried on the next read
pass — so the dispatched events depend only on the concatenation of the
chunks, for every chunking — and the final pending fragment remaining at
stream close is parsed once but dispatched only when it is a `done` frame
(to `onComplete`); all other final-fragment types are dropped. -/
theorem claim6_theorem (hasOnError : Bool) (parse : String → Option SSEData)
    (chunks : List String) :
    chatStreamEvents hasOnError parse chunks =
      chatStreamEventsSpec hasOnError parse chunks := by
  unfold chatStreamEvents chatStreamEventsSpec
  rw [streamLoop_eq hasOnError parse (chunks.map String.data) [] rfl]
  rw [List.nil_append]

/-! ## The chat hook (`src/src/hooks/useHypeonChat.ts`)

State mutations are modelled as pure functions on a `HookState`; the
in-stream callbacks fold over the event list produced by the transport
model above.  `Date.now()` is the `now` parameter; message ids are the
template strings built from it. -/

/-- Stage status of `StageInfo`. -/
inductive StageStatus where
  | pending
  | active
  | completed
  | failed
deriving DecidableEq

/-- `StageInfo` (hook lines 17-27). -/
structure StageInfo where
  name : String
  label : String
  status : StageStatus
  progress : ℚ
  message : String
  latencyMs : Option Nat := none
  error : Option String := none
  stageIndex : Option Nat := none
  totalStages : Option Nat := none
deriving DecidableEq

/-- The stages `Map` keyed by stage name, preserving insertion order like a
JavaScript `Map`. -/
def StageMap : Type := List (String × StageInfo)

/-- `Map.get`. -/
def mapGet (m : StageMap) (k : String) : Option StageInfo :=
  match m with
  | [] => none
  | (k0, v0) :: rest => if k0 = k then some v0 else mapGet rest k

/-- `Map.set`: replace in place if the key exists, else append. -/
def mapSet (m : StageMap) (k : String) (v : StageInfo) : StageMap :=
  match m with
  | [] => [(k, v)]
  | (k0, v0) :: rest => if k0 = k then (k0, v) :: rest else (k0, v0) :: mapSet rest k v

theorem mapGet_mapSet_self (m : StageMap) (k : String) (v : StageInfo) :
    mapGet (mapSet m k v) k = some v := by
  induction m with
  | nil => simp [mapGet, mapSet]
  | cons p rest ih =>
    obtain ⟨k0, v0⟩ := p
    by_cases hk : k0 = k
    · simp [mapGet, mapSet, hk]
    · simp [mapGet, mapSet, hk, ih]

theorem mapGet_mapSet_ne (m : StageMap) (k k2 : String) (v : StageInfo) (h : k ≠ k2) :
    mapGet (mapSet m k v) k2 = mapGet m k2 := by
  induction m with
  | nil => simp [mapGet, mapSet, h]
  | cons p rest ih =>
    obtain ⟨k0, v0⟩ := p
    by_cases hk : k0 = k
    · subst hk
      simp [mapGet, mapSet, h]
    · simp only [mapSet, hk, if_false, mapGet]
      by_cases hk2 : k0 = k2
      · simp [hk2]
      · simp [hk2, ih]

/-- The hook's `stageLabels` record (lines 98-107). -/
def stageLabels (s : String) : Option String :=
  if s = "routing" then some "Initializing"
  else if s = "enhance" then some "Optimizing"
  else if s = "research" then some "Searching"
  else if s = "analysis" then some "Analyzing"
  else if s = "compose" then some "Composing"
  else if s = "done" then some "Complete"
  else if s = "error" then some "Error"
  else if s = "unknown" then some "Processing"
  else none

/-- `stageLabels[stage] || stage` (every label is a non-empty literal, so
`||` is `getD` here). -/
def labelOf (s : String) : String := (stageLabels s).getD s

/-- The generic client-side message written by the stage-start callback. -/
def startingMsg (s : String) : String := "Starting " ++ labelOf s ++ "..."

/-- Substring test on character lists, modelling
`String.prototype.includes`. -/
def listHasPfx : List Char → List Char → Bool
  | _, [] => true
  | [], _ :: _ => false
  | c :: s, d :: p => c = d && listHasPfx s p

/-- Whether `p` occurs inside `s` (JavaScript `s.includes(p)`). -/
def listContainsSub : List Char → List Char → Bool
  | [], p => p.isEmpty
  | s@(_ :: rest), p => listHasPfx s p || listContainsSub rest p

/-- `s.includes(pat)`. -/
def strContains (s pat : String) : Bool := listContainsSub s.data pat.data

/-- `(latencyMs / 1000).toFixed(1)` (rounded to one decimal; JavaScript
`toFixed` rounds to nearest, half away from zero for these magnitudes). -/
def fmtLatencySec (n : Nat) : String :=
  let d := (n + 50) / 100
  toString (d / 10) ++ "." ++ toString (d % 10)

/-- `latencyMs || undefined` (`0` and `null` both collapse to absent). -/
def natOrNone (v : Option Nat) : Option Nat :=
  match v with
  | some 0 => none
  | some n => some n
  | none => none

/-- `error || undefined`. -/
def strOrNone (v : Option String) : Option String :=
  match v with
  | some "" => none
  | some s => some s
  | none => none

/-- The trimmed-or-default progress message the hook computes
(`const message = statusMessage?.trim() || 'Processing...'`, line 332). -/
def hookProgressMsg (statusMessage : String) : String :=
  if jsTrim statusMessage = "" then "Processing..." else jsTrim statusMessage

/-- The hook's progress callback stage-map update (lines 350-370): upsert
the entry, always overwriting `message` with the latest text and `progress`
with the given value (no clamping anywhere on this path). -/
def progressCB (stages : StageMap) (stage : String) (progressValue : ℚ)
    (statusMessage : String) : StageMap :=
  let message := hookProgressMsg statusMessage
  match mapGet stages stage with
  | some existing =>
    mapSet stages stage { existing with progress := progressValue, message := message }
  | none =>
    mapSet stages stage
      { name := stage, label := labelOf stage, status := .active,
        progress := progressValue, message := message }

/-- The hook's stage-start callback (lines 464-495): create or refresh the
entry; an existing entry with a detailed (non-generic) message keeps its
message but still has its status set to `active`. -/
def stageStartCB (stages : StageMap) (stage : String) (stageIndex totalStages : Nat) :
    StageMap :=
  match mapGet stages stage with
  | none =>
    mapSet stages stage
      { name := stage, label := labelOf stage, status := .active, progress := 0,
        message := startingMsg stage, stageIndex := some stageIndex,
        totalStages := some totalStages }
  | some existing =>
    if existing.message = startingMsg stage then
      mapSet stages stage
        { name := stage, label := labelOf stage, status := .active, progress := 0,
          message := startingMsg stage, stageIndex := some stageIndex,
          totalStages := some totalStages }
    else
      mapSet stages stage
        { existing with
          status := .active
          stageIndex := some stageIndex
          totalStages := some totalStages }

/-- The synthesized completion message (lines 509-511). -/
def completionMessage (stage : String) (success : Bool) (latencyMs : Option Nat)
    (error : Option String) : String :=
  if success then
    labelOf stage ++ " complete" ++
      (match latencyMs with
        | some n => if n ≠ 0 then " (" ++ fmtLatencySec n ++ "s)" else ""
        | none => "")
  else "Failed: " ++ (orElseStr error "Unknown error")

/-- The hook's stage-complete callback (lines 497-536): terminal status,
progress pinned to 1 or 0, and the stored message preserved only when it is
truthy, differs from the generic starting message, does not contain
`complete`, and the stage succeeded. -/
def stageCompleteCB (stages : StageMap) (stage : String) (success : Bool)
    (latencyMs : Option Nat) (error : Option String) : StageMap :=
  match mapGet stages stage with
  | some existing =>
    let preserveMessage :=
      existing.message ≠ "" ∧ existing.message ≠ startingMsg stage ∧
        strContains existing.message "complete" = false ∧ success = true
    mapSet stages stage
      { existing with
        status := if success then .completed else .failed
        progress := if success then 1 else 0
        latencyMs := natOrNone latencyMs
        error := strOrNone error
        message := if preserveMessage then existing.message
          else completionMessage stage success latencyMs error }
  | none =>
    mapSet stages stage
      { name := stage, label := labelOf stage
        status := if success then .completed else .failed
        progress := if success then 1 else 0
        latencyMs := natOrNone latencyMs
        error := strOrNone error
        message := completionMessage stage success latencyMs error }

/-- The `done` handler marks every still-active stage completed
(lines 313-322). -/
def completeAllActive (stages : StageMap) : StageMap :=
  stages.map fun p =>
    if p.2.status = .active then (p.1, { p.2 with status := .completed, progress := 1 })
    else p

/-- A chat message as held in the hook's `messages` state.  The metadata
object is modelled by its two parts (`metadata` payload and the
`sectionTitles` the source merges into it). -/
structure Msg where
  message_id : String
  session_id : String
  role : String
  content : String
  created_at : Nat
  isStreaming : Bool := false
  isNew : Bool := false
  token_count : Option Nat := none
  tables : Option (List NormTable) := none
  insights : List JVal := []
  artifacts : List JVal := []
  explanation : Option String := none
  metadata : Option JVal := none
  sectionTitles : Option JVal := none

/-- The hook's state (lines 64-74). -/
structure HookState where
  messages : List Msg := []
  sessionId : Option String := none
  loading : Bool := false
  error : Option String := none
  progress : Option (String × ℚ × String) := none
  stages : StageMap := []
  progressUpdateCounter : Nat := 0
  researchPlan : Option ResearchPlan := none

/-- The local accumulators of one `sendMessageStream` call
(`assistantContent`, `tokenCount`, `streamingTables`, `streamingInsights`,
`streamingArtifacts`, lines 234-238). -/
structure StreamAcc where
  content : String := ""
  tokenCount : Nat := 0
  tables : List NormTable := []
  insights : List JVal := []
  artifacts : List JVal := []

/-- `Math.ceil(text.length / 4)` (line 241). -/
def estimateTokens (text : String) : Nat := (text.length + 3) / 4

/-- `!sessionId` for a `string | null` value: `null` and `""` are falsy. -/
def isFalsyStr (v : Option String) : Bool :=
  match v with
  | none => true
  | some s => s = ""

/-- The optimistic user message (lines 212-218). -/
def mkUserMessage (st : HookState) (message : String) (now : Nat) : Msg :=
  { message_id := "temp-" ++ toString now
    session_id := orElseStr st.sessionId "temp"
    role := "user"
    content := message
    created_at := now }

/-- The streaming placeholder assistant message (lines 223-231). -/
def mkStreamingMessage (st : HookState) (now : Nat) : Msg :=
  { message_id := "streaming-" ++ toString now
    session_id := orElseStr st.sessionId "temp"
    role := "assistant"
    content := ""
    created_at := now
    isStreaming := true }

/-- Merging progressive tables with the final-frame tables, final ones
winning on id equality (lines 273-284). -/
def mergeTables (streaming final : List NormTable) : List NormTable :=
  final.foldl
    (fun all ft =>
      match all.findIdx? (fun t => t.id == ft.id) with
      | some i => all.set i ft
      | none => all ++ [ft])
    streaming

/-- One in-stream callback of `sendMessageStream`, folding a transport
event into the local accumulators and the hook state (lines 253-575).  The
research-plan search-term matching block inside the progress callback maps
every term to itself, so it leaves `researchPlan` unchanged. -/
def applyEv (capturedSessionId : Option String) (streamingMessageId : String) (now : Nat)
    (state : StreamAcc × HookState) (e : Ev) : StreamAcc × HookState :=
  let acc := state.1
  let st := state.2
  match e with
  | .chunk c _ =>
    if c ≠ "" then
      ({ acc with
          content := acc.content ++ c
          tokenCount := acc.tokenCount + estimateTokens c }, st)
    else (acc, st)
  | .progressEv stage v msg =>
    (acc,
     { st with
        progress := some (stage, v, hookProgressMsg msg)
        progressUpdateCounter := st.progressUpdateCounter + 1
        stages := progressCB st.stages stage v msg })
  | .tableEv t =>
    let tables2 := acc.tables ++ [t]
    ({ acc with tables := tables2 },
     { st with
        messages := st.messages.map fun m =>
          if m.message_id = streamingMessageId then
            { m with tables := some tables2, isStreaming := true }
          else m })
  | .insightEv v =>
    let insights2 := acc.insights ++ [v]
    ({ acc with insights := insights2 },
     { st with
        messages := st.messages.map fun m =>
          if m.message_id = streamingMessageId then
            { m with insights := insights2, isStreaming := true }
          else m })
  | .artifactEv v =>
    let artifacts2 := acc.artifacts ++ [v]
    ({ acc with artifacts := artifacts2 },
     { st with
        messages := st.messages.map fun m =>
          if m.message_id = streamingMessageId then
            { m with artifacts := artifacts2, isStreaming := true }
          else m })
  | .stageStart s i n =>
    (acc, { st with stages := stageStartCB st.stages s i n })
  | .stageComplete s succ lat err =>
    (acc, { st with stages := stageCompleteCB st.stages s succ lat err })
  | .researchPlanEv p =>
    (acc, { st with researchPlan := some p })
  | .complete sid tables expl ins arts meta titles =>
    let st1 :=
      if isFalsyStr capturedSessionId then { st with sessionId := sid } else st
    let allTables := mergeTables acc.tables (tables.getD [])
    let assistantMessage : Msg :=
      { message_id := "msg-" ++ toString now
        session_id := sid.getD ""
        role := "assistant"
        content := acc.content
        created_at := now
        token_count := some acc.tokenCount
        tables := some (if allTables.length > 0 then allTables else tables.getD [])
        insights := acc.insights ++ ins
        artifacts := acc.artifacts ++ arts
        explanation := orNullStr expl
        isStreaming := false
        isNew := true
        metadata := meta
        sectionTitles := titles }
    (acc,
     { st1 with
        messages := st1.messages.map fun m =>
          if m.message_id = streamingMessageId then assistantMessage else m
        progress := none
        stages := completeAllActive st1.stages })
  | .errorCb emsg _ =>
    (acc,
     { st with
        error := some emsg
        progress := none
        messages :=
          if acc.content ≠ "" then
            st.messages.map fun m =>
              if m.message_id = streamingMessageId then
                { m with isStreaming := false, content := acc.content }
              else m
          else
            st.messages.filter fun m => m.message_id != streamingMessageId })

/-- One full `sendMessageStream` call (lines 196-593): the guard, the
optimistic setup, the fold over the transport events, the `catch` block for
a thrown error (its message in `thrown`), and the `finally`. -/
def runSendStream (st : HookState) (message : String) (now : Nat)
    (evs : List Ev) (thrown : Option String) : HookState :=
  if jsTrim message = "" ∨ st.loading = true then st
  else
    let userMessage := mkUserMessage st message now
    let streamingMessageId := "streaming-" ++ toString now
    let st1 : HookState :=
      { st with
        loading := true
        error := none
        progress := some ("routing", 0, "Initializing...")
        stages := []
        progressUpdateCounter := 0
        researchPlan := none
        messages := st.messages ++ [userMessage, mkStreamingMessage st now] }
    let res := evs.foldl (applyEv st.sessionId streamingMessageId now) ({}, st1)
    let st3 :=
      match thrown with
      | some err =>
        { res.2 with
          error := some (orElseStr (some err) "Failed to send message")
          progress := none
          messages := res.2.messages.filter fun m =>
            (m.message_id != userMessage.message_id) &&
              (m.message_id != streamingMessageId) }
      | none => res.2
    { st3 with loading := false }

/-- The non-streaming response shape used by `sendMessage` (only the fields
the hook reads). -/
structure ChatResp where
  session_id : String
  answer : String

/-- One full `sendMessage` call (lines 133-194): the guard, the optimistic
user message, and either the success path or the catch path, with the
network outcome supplied as `outcome`. -/
def runSendMessage (st : HookState) (message : String) (now : Nat)
    (outcome : Except String ChatResp) : HookState :=
  if jsTrim message = "" ∨ st.loading = true then st
  else
    let userMessage := mkUserMessage st message now
    let st1 :=
      { st with
        loading := true
        error := none
        messages := st.messages ++ [userMessage] }
    match outcome with
    | .ok r =>
      let st2 :=
        if isFalsyStr st.sessionId then { st1 with sessionId := some r.session_id }
        else st1
      let assistantMessage : Msg :=
        { message_id := "msg-" ++ toString now
          session_id := r.session_id
          role := "assistant"
          content := r.answer
          created_at := now }
      { st2 with messages := st2.messages ++ [assistantMessage], loading := false }
    | .error err =>
      { st1 with
        error := some (orElseStr (some err) "Failed to send message")
        messages := st1.messages.filter fun m => m.message_id != userMessage.message_id
        loading := false }

/-! ### Claim C9 -/

/-- C9: calling `sendMessage` or `sendMessageStream` while `loading` is true
or with a message that trims to empty is a no-op — the guard returns before
any state is touched, so the whole hook state (messages, session id, stage
map, progress, error) is unchanged. -/
theorem claim9_theorem (st : HookState) (message : String) (now : Nat)
    (evs : List Ev) (thrown : Option String) (outcome : Except String ChatResp)
    (h : st.loading = true ∨ jsTrim message = "") :
    runSendMessage st message now outcome = st ∧
      runSendStream st message now evs thrown = st := by
  have hc : jsTrim message = "" ∨ st.loading = true := h.elim Or.inr Or.inl
  constructor
  · unfold runSendMessage
    rw [if_pos hc]
  · unfold runSendStream
    rw [if_pos hc]

/-- C9 witness: the guard theorem applied with `loading = true`. -/
theorem claim9_witness :
    runSendMessage { loading := true } "hi" 0 (.error "x") = { loading := true } ∧
      runSendStream { loading := true } "hi" 0 [] none = { loading := true } :=
  claim9_theorem { loading := true } "hi" 0 [] none (.error "x") (Or.inl rfl)

/-! ### Claim C1 -/

/-- Modelled from the spec: the clamping to [0,1] that §4.3 prescribes for
the stored progress value. -/
def clampSpec (q : ℚ) : ℚ := max 0 (min 1 q)

/-- C1 counterexample: a progress event with value 3/2 stores 3/2, not the
clamped 1 — no clamping exists anywhere on the progress path. -/
theorem claim1_counterexample :
    (mapGet (progressCB [] "routing" (3/2) "Ranking products") "routing").map
        StageInfo.progress = some ((3 : ℚ)/2) ∧
      (mapGet (progressCB [] "routing" (3/2) "Ranking products") "routing").map
        StageInfo.progress ≠ some (clampSpec (3/2)) := by
  refine ⟨rfl, ?_⟩
  intro h
  have hc : clampSpec (3/2) = 1 := by
    norm_num [clampSpec]
  rw [hc] at h
  have h2 : ((3 : ℚ)/2) = 1 := by
    have h3 : some ((3 : ℚ)/2) = some (1 : ℚ) := by
      rw [show (mapGet (progressCB [] "routing" (3/2) "Ranking products") "routing").map
        StageInfo.progress = some ((3 : ℚ)/2) from rfl] at h
      exact h
    exact Option.some.inj h3
  norm_num at h2

/-- C1 (amended): after each progress event for a stage the stored message
equals that event's trimmed non-empty backend message and the stored
progress equals the event's value exactly as delivered (no clamping); and a
successful `stage_complete` does not replace a previously stored detailed
message (one that is non-empty, differs from the generic starting message
and does not contain `complete`). -/
theorem claim1_theorem :
    (∀ (stages : StageMap) (stage : String) (v : ℚ) (msg : String),
        jsTrim msg ≠ "" →
        (mapGet (progressCB stages stage v msg) stage).map StageInfo.message =
            some (jsTrim msg) ∧
          (mapGet (progressCB stages stage v msg) stage).map StageInfo.progress =
            some v) ∧
      (∀ (stages : StageMap) (stage : String) (lat : Option Nat) (info : StageInfo),
        mapGet stages stage = some info →
        info.message ≠ "" → info.message ≠ startingMsg stage →
        strContains info.message "complete" = false →
        (mapGet (stageCompleteCB stages stage true lat none) stage).map
          StageInfo.message = some info.message) := by
  constructor
  · intro stages stage v msg htrim
    unfold progressCB
    cases hg : mapGet stages stage with
    | none =>
      rw [mapGet_mapSet_self]
      simp [hookProgressMsg, htrim]
    | some existing =>
      rw [mapGet_mapSet_self]
      simp [hookProgressMsg, htrim]
  · intro stages stage lat info hget h1 h2 h3
    unfold stageCompleteCB
    rw [hget]
    rw [mapGet_mapSet_self]
    simp only [Option.map_some']
    rw [if_pos ⟨h1, h2, h3, by trivial⟩]

/-- C1 witness: after a detailed progress message for stage `research`, a
successful `stage_complete` (with latency) keeps the detailed message. -/
theorem claim1_witness :
    (mapGet (progressCB [] "research" (1/2) "Found 48 sources") "research").map
        StageInfo.message = some (jsTrim "Found 48 sources") ∧
      (mapGet (stageCompleteCB (progressCB [] "research" (1/2) "Found 48 sources")
            "research" true (some 120) none) "research").map StageInfo.message =
        some (jsTrim "Found 48 sources") := by
  have hmsg := (claim1_theorem.1 [] "research" (1/2) "Found 48 sources" (by decide)).1
  refine ⟨hmsg, ?_⟩
  cases hI : mapGet (progressCB [] "research" (1/2) "Found 48 sources") "research" with
  | none =>
    rw [hI] at hmsg
    exact absurd hmsg (by simp)
  | some info =>
    rw [hI] at hmsg
    have hm : info.message = jsTrim "Found 48 sources" := by
      simpa using hmsg
    rw [← hm]
    refine claim1_theorem.2 _ "research" (some 120) info hI ?_ ?_ ?_
    · rw [hm]; decide
    · rw [hm]; decide
    · rw [hm]; decide

/-! ### Claim C3 -/

/-- The stage-map transition for one transport event (only the three stage
events touch the map). -/
def applyStageEv (m : StageMap) : Ev → StageMap
  | .stageStart s i n => stageStartCB m s i n
  | .progressEv s v msg => progressCB m s v msg
  | .stageComplete s succ lat err => stageCompleteCB m s succ lat err
  | _ => m

/-- A sequence of stage events applied to the stage map. -/
def applyStageEvs (m : StageMap) (evs : List Ev) : StageMap :=
  evs.foldl applyStageEv m

/-- Whether a stage status is terminal. -/
def terminalStatus (s : StageStatus) : Bool :=
  s = .completed || s = .failed

/-- The replayed event sequence of the C3 counterexample. -/
def c3evs : List Ev :=
  [.stageStart "routing" 0 1, .stageComplete "routing" true none none,
    .stageStart "routing" 0 1]

/-- C3 counterexample: after `stage_start`, `stage_complete(success)` the
stage is `completed`, but a further `stage_start` for the same stage sets it
back to `active` — the stage-start callback unconditionally writes status
`active` over an existing entry. -/
theorem claim3_counterexample :
    (mapGet (applyStageEvs [] (c3evs.take 2)) "routing").map StageInfo.status =
        some .completed ∧
      (mapGet (applyStageEvs [] c3evs) "routing").map StageInfo.status =
        some .active := ⟨rfl, rfl⟩

theorem mapGet_stageStartCB_ne (m : StageMap) (s : String) (i n : Nat) (stage : String)
    (h : s ≠ stage) : mapGet (stageStartCB m s i n) stage = mapGet m stage := by
  unfold stageStartCB
  cases mapGet m s with
  | none => exact mapGet_mapSet_ne m s stage _ h
  | some ex =>
    by_cases h2 : ex.message = startingMsg s <;>
      simp [h2, mapGet_mapSet_ne m s stage _ h]

theorem mapGet_progressCB_ne (m : StageMap) (s : String) (v : ℚ) (msg : String)
    (stage : String) (h : s ≠ stage) :
    mapGet (progressCB m s v msg) stage = mapGet m stage := by
  unfold progressCB
  cases mapGet m s with
  | none => exact mapGet_mapSet_ne m s stage _ h
  | some ex => exact mapGet_mapSet_ne m s stage _ h

theorem mapGet_stageCompleteCB_ne (m : StageMap) (s : String) (succ : Bool)
    (lat : Option Nat) (err : Option String) (stage : String) (h : s ≠ stage) :
    mapGet (stageCompleteCB m s succ lat err) stage = mapGet m stage := by
  unfold stageCompleteCB
  cases mapGet m s with
  | none => exact mapGet_mapSet_ne m s stage _ h
  | some ex => exact mapGet_mapSet_ne m s stage _ h

/-- C3 (amended): a stage that has reached `completed` or `failed` never
returns to `active` or `pending` under any further sequence of `progress`
and `stage_complete` events — provided no further `stage_start` event
arrives for that stage (a replayed `stage_start` does regress the status, as
the counterexample shows). -/
theorem claim3_theorem (evs : List Ev) (m : StageMap) (stage : String)
    (info : StageInfo) (hget : mapGet m stage = some info)
    (hterm : terminalStatus info.status = true)
    (hnostart : ∀ i n, Ev.stageStart stage i n ∉ evs) :
    ∃ info2, mapGet (applyStageEvs m evs) stage = some info2 ∧
      terminalStatus info2.status = true := by
  induction evs generalizing m info with
  | nil => exact ⟨info, hget, hterm⟩
  | cons e rest ih =>
    have hstep : ∃ info1, mapGet (applyStageEv m e) stage = some info1 ∧
        terminalStatus info1.status = true := by
      cases e with
      | stageStart s i n =>
        have hne : s ≠ stage := by
          intro heq
          subst heq
          exact hnostart i n (List.mem_cons_self _ _)
        refine ⟨info, ?_, hterm⟩
        show mapGet (stageStartCB m s i n) stage = some info
        rw [mapGet_stageStartCB_ne m s i n stage hne]
        exact hget
      | progressEv s v msg =>
        by_cases hne : s = stage
        · subst hne
          refine ⟨{ info with progress := v, message := hookProgressMsg msg }, ?_, hterm⟩
          show mapGet (progressCB m s v msg) s = _
          unfold progressCB
          rw [hget, mapGet_mapSet_self]
        · refine ⟨info, ?_, hterm⟩
          show mapGet (progressCB m s v msg) stage = some info
          rw [mapGet_progressCB_ne m s v msg stage hne]
          exact hget
      | stageComplete s succ lat err =>
        by_cases hne : s = stage
        · subst hne
          show ∃ info1, mapGet (stageCompleteCB m s succ lat err) s = some info1 ∧ _
          unfold stageCompleteCB
          rw [hget, mapGet_mapSet_self]
          refine ⟨_, rfl, ?_⟩
          cases succ <;> simp [terminalStatus]
        · refine ⟨info, ?_, hterm⟩
          show mapGet (stageCompleteCB m s succ lat err) stage = some info
          rw [mapGet_stageCompleteCB_ne m s succ lat err stage hne]
          exact hget
      | chunk c d => exact ⟨info, hget, hterm⟩
      | tableEv t => exact ⟨info, hget, hterm⟩
      | insightEv v => exact ⟨info, hget, hterm⟩
      | artifactEv v => exact ⟨info, hget, hterm⟩
      | researchPlanEv p => exact ⟨info, hget, hterm⟩
      | complete a b c d e f g => exact ⟨info, hget, hterm⟩
      | errorCb a b => exact ⟨info, hget, hterm⟩
    obtain ⟨info1, hget1, hterm1⟩ := hstep
    exact ih (applyStageEv m e) info1 hget1 hterm1
      (fun i n hmem => hnostart i n (List.mem_cons_of_mem _ hmem))

/-- A terminal stage entry used by the C3 witness. -/
def c3info : StageInfo :=
  { name := "routing", label := "Initializing", status := .completed,
    progress := 1, message := "Request processed" }

/-- C3 witness: the amended theorem applied to a completed stage and a
later progress event for it. -/
theorem claim3_witness :
    ∃ info2, mapGet (applyStageEvs [("routing", c3info)]
        [.progressEv "routing" (1/2) "late detail"]) "routing" = some info2 ∧
      terminalStatus info2.status = true :=
  claim3_theorem [.progressEv "routing" (1/2) "late detail"] [("routing", c3info)]
    "routing" c3info rfl rfl
    (by intro i n hmem; simp [List.mem_cons] at hmem)

/-! ### Claim C2 -/

theorem temp_ne_streaming (x : String) : ("temp-" ++ x) ≠ ("streaming-" ++ x) := by
  intro h
  have h2 := congrArg String.length h
  rw [String.length_append, String.length_append] at h2
  rw [show ("temp-" : String).length = 5 from rfl,
    show ("streaming-" : String).length = 10 from rfl] at h2
  omega

/-- C2 counterexample: a mid-stream error frame with no accumulated content
removes only the streaming placeholder — the optimistic user message stays,
so the message list does not return to its pre-call state on the error-frame
path. -/
theorem claim2_counterexample :
    (runSendStream {} "hi" 0 [.errorCb "boom" none] none).messages ≠
      ({} : HookState).messages := by
  intro h
  have h2 := congrArg List.length h
  have hL : (runSendStream {} "hi" 0 [.errorCb "boom" none] none).messages.length = 1 :=
    rfl
  rw [hL] at h2
  simp at h2

theorem applyEv_errorCb_noContent (cap : Option String) (sid : String) (now : Nat)
    (st : HookState) (e : String) (code : Option String) :
    (applyEv cap sid now ({}, st) (.errorCb e code)).2.messages =
      st.messages.filter fun m => m.message_id != sid := by
  simp [applyEv]

/-- C2 (amended): on the thrown-error path (total failure, no events) both
the optimistic user message and the streaming placeholder are removed and
the message list equals its exact pre-call state; on the mid-stream
error-frame path with no accumulated content only the streaming placeholder
is removed — the optimistic user message remains appended. -/
theorem claim2_theorem (st : HookState) (message : String) (now : Nat)
    (errMsg e : String) (code : Option String)
    (hguard : ¬(jsTrim message = "" ∨ st.loading = true))
    (hfresh : ∀ m ∈ st.messages,
      m.message_id ≠ "temp-" ++ toString now ∧
        m.message_id ≠ "streaming-" ++ toString now) :
    (runSendStream st message now [] (some errMsg)).messages = st.messages ∧
      (runSendStream st message now [.errorCb e code] none).messages =
        st.messages ++ [mkUserMessage st message now] := by
  have hkeep1 : ∀ m ∈ st.messages,
      ((m.message_id != "temp-" ++ toString now) &&
        (m.message_id != "streaming-" ++ toString now)) = true := by
    intro m hm
    have h := hfresh m hm
    simp [bne_iff_ne, h.1, h.2]
  have hkeep2 : ∀ m ∈ st.messages,
      (m.message_id != "streaming-" ++ toString now) = true := by
    intro m hm
    simp [bne_iff_ne, (hfresh m hm).2]
  constructor
  · unfold runSendStream
    rw [if_neg hguard]
    show ((st.messages ++ [mkUserMessage st message now, mkStreamingMessage st now]).filter
        fun m => (m.message_id != (mkUserMessage st message now).message_id) &&
          (m.message_id != "streaming-" ++ toString now)) = st.messages
    rw [List.filter_append]
    rw [List.filter_eq_self.mpr (by
      intro m hm
      show ((m.message_id != (mkUserMessage st message now).message_id) &&
        (m.message_id != "streaming-" ++ toString now)) = true
      exact hkeep1 m hm)]
    rw [show ([mkUserMessage st message now, mkStreamingMessage st now].filter
        fun m => (m.message_id != (mkUserMessage st message now).message_id) &&
          (m.message_id != "streaming-" ++ toString now)) = [] from by
      simp [mkUserMessage, mkStreamingMessage]]
    rw [List.append_nil]
  · unfold runSendStream
    rw [if_neg hguard]
    show ((st.messages ++ [mkUserMessage st message now, mkStreamingMessage st now]).filter
        fun m => m.message_id != "streaming-" ++ toString now) =
      st.messages ++ [mkUserMessage st message now]
    rw [List.filter_append]
    rw [List.filter_eq_self.mpr hkeep2]
    have hu : ((mkUserMessage st message now).message_id !=
        "streaming-" ++ toString now) = true := by
      simp only [mkUserMessage, bne_iff_ne, ne_eq]
      exact temp_ne_streaming (toString now)
    have hs : ((mkStreamingMessage st now).message_id !=
        "streaming-" ++ toString now) = false := by
      simp [mkStreamingMessage]
    rw [show ([mkUserMessage st message now, mkStreamingMessage st now].filter
        fun m => m.message_id != "streaming-" ++ toString now) =
          [mkUserMessage st message now] from by
      simp [List.filter, hu, hs]]

/-- C2 witness: the amended theorem at a concrete state — an empty chat,
message `hi`, one thrown failure and one error-frame failure. -/
theorem claim2_witness :
    (runSendStream {} "hi" 7 [] (some "network down")).messages =
        ({} : HookState).messages ∧
      (runSendStream {} "hi" 7 [.errorCb "boom" none] none).messages =
        ({} : HookState).messages ++ [mkUserMessage {} "hi" 7] :=
  claim2_theorem {} "hi" 7 "network down" "boom" none (by decide)
    (by intro m hm; simp at hm)

/-! ### Claim C7 -/

/-- Concatenation of the token chunks received so far. -/
def strJoin : List String → String
  | [] => ""
  | t :: rest => t ++ strJoin rest

theorem chunk_fold (cap : Option String) (sid : String) (now : Nat) :
    ∀ (tokens : List String) (acc : StreamAcc) (st : HookState),
      ((tokens.map fun t => Ev.chunk t false).foldl (applyEv cap sid now) (acc, st)).2 = st ∧
        ((tokens.map fun t => Ev.chunk t false).foldl (applyEv cap sid now)
          (acc, st)).1.content = acc.content ++ strJoin tokens := by
  intro tokens
  induction tokens with
  | nil =>
    intro acc st
    exact ⟨rfl, by simp [strJoin, String.append_empty]⟩
  | cons t rest ih =>
    intro acc st
    by_cases ht : t = ""
    · subst ht
      simp only [List.map_cons, List.foldl_cons]
      rw [show applyEv cap sid now (acc, st) (.chunk "" false) = (acc, st) from by
        simp [applyEv]]
      refine ⟨(ih acc st).1, ?_⟩
      rw [(ih acc st).2]
      simp [strJoin, String.empty_append]
    · simp only [List.map_cons, List.foldl_cons]
      rw [show applyEv cap sid now (acc, st) (.chunk t false) =
          ({ acc with
              content := acc.content ++ t
              tokenCount := acc.tokenCount + estimateTokens t }, st) from by
        simp [applyEv, ht]]
      refine ⟨(ih _ st).1, ?_⟩
      rw [(ih _ st).2]
      show (acc.content ++ t) ++ strJoin rest = acc.content ++ strJoin (t :: rest)
      rw [String.append_assoc]
      rfl

theorem fold_chunks_err (cap : Option String) (sid : String) (now : Nat)
    (tokens : List String) (e : String) (code : Option String) (st1 : HookState) :
    (((tokens.map fun t => Ev.chunk t false) ++ [Ev.errorCb e code]).foldl
        (applyEv cap sid now) ({}, st1)).2.messages =
      if strJoin tokens ≠ "" then
        st1.messages.map fun m =>
          if m.message_id = sid then
            { m with isStreaming := false, content := strJoin tokens }
          else m
      else st1.messages.filter fun m => m.message_id != sid := by
  rw [List.foldl_append]
  obtain ⟨h2, h1⟩ := chunk_fold cap sid now tokens {} st1
  have hpair : ((tokens.map fun t => Ev.chunk t false).foldl (applyEv cap sid now)
      ({}, st1)) =
      (((tokens.map fun t => Ev.chunk t false).foldl (applyEv cap sid now) ({}, st1)).1,
        st1) :=
    Prod.mk.eta.symm.trans (congrArg
      (fun y => (((tokens.map fun t => Ev.chunk t false).foldl (applyEv cap sid now)
        ({}, st1)).1, y)) h2)
  rw [hpair]
  rw [show (({} : StreamAcc)).content = "" from rfl] at h1
  rw [String.empty_append] at h1
  simp only [List.foldl_cons, List.foldl_nil, applyEv, h1]

/-- C7: a mid-stream error frame is reported through the error callback
without throwing — the dispatch of an `error` frame (with `onError`
provided) is exactly one `onError` invocation, dispatching is per-frame so
later frames are still processed — and the hook's error callback finalizes
the streaming placeholder with the accumulated partial content when any
token content was received, and removes the placeholder when none was. -/
theorem claim7_theorem :
    (∀ d : SSEData, d.type = "error" →
        dispatchData true d = [.errorCb (orElseStr d.errorMsg "Unknown error") d.code]) ∧
      (∀ (he : Bool) (parse : String → Option SSEData) (fs1 fs2 : List (List Char)),
        (fs1 ++ fs2).flatMap (frameEvents he parse) =
          fs1.flatMap (frameEvents he parse) ++ fs2.flatMap (frameEvents he parse)) ∧
      (∀ (st : HookState) (message : String) (now : Nat) (tokens : List String)
          (e : String) (code : Option String),
        ¬(jsTrim message = "" ∨ st.loading = true) →
        (∀ m ∈ st.messages, m.message_id ≠ "streaming-" ++ toString now) →
        (runSendStream st message now
            ((tokens.map fun t => Ev.chunk t false) ++ [Ev.errorCb e code]) none).messages =
          if strJoin tokens ≠ "" then
            st.messages ++ [mkUserMessage st message now,
              { mkStreamingMessage st now with
                  isStreaming := false, content := strJoin tokens }]
          else st.messages ++ [mkUserMessage st message now]) := by
  refine ⟨?_, ?_, ?_⟩
  · intro d hd
    simp [dispatchData, hd]
  · intro he parse fs1 fs2
    simp [List.flatMap_append]
  · intro st message now tokens e code hguard hfresh
    unfold runSendStream
    rw [if_neg hguard]
    rw [fold_chunks_err st.sessionId ("streaming-" ++ toString now) now tokens e code _]
    by_cases hc : strJoin tokens ≠ ""
    · rw [if_pos hc, if_pos hc]
      show ((st.messages ++ [mkUserMessage st message now, mkStreamingMessage st now]).map
          fun m => if m.message_id = "streaming-" ++ toString now then
            { m with isStreaming := false, content := strJoin tokens } else m) = _
      rw [List.map_append]
      have hmapself : (st.messages.map fun m =>
          if m.message_id = "streaming-" ++ toString now then
            { m with isStreaming := false, content := strJoin tokens }
          else m) = st.messages := by
        have hid : ∀ m ∈ st.messages,
            (fun m => if m.message_id = "streaming-" ++ toString now then
              { m with isStreaming := false, content := strJoin tokens }
            else m) m = id m := by
          intro m hm
          simp only [id]
          rw [if_neg (hfresh m hm)]
        rw [List.map_congr_left hid, List.map_id]
      rw [hmapself]
      simp only [List.map_cons, List.map_nil]
      rw [if_neg (show ¬ (mkUserMessage st message now).message_id =
        "streaming-" ++ toString now from temp_ne_streaming (toString now))]
      rw [if_pos (show (mkStreamingMessage st now).message_id =
        "streaming-" ++ toString now from rfl)]
    · rw [if_neg hc, if_neg hc]
      show ((st.messages ++ [mkUserMessage st message now, mkStreamingMessage st now]).filter
          fun m => m.message_id != "streaming-" ++ toString now) = _
      rw [List.filter_append]
      rw [List.filter_eq_self.mpr (by
        intro m hm
        simp [bne_iff_ne, hfresh m hm])]
      have hu : ((mkUserMessage st message now).message_id !=
          "streaming-" ++ toString now) = true := by
        simp only [mkUserMessage, bne_iff_ne, ne_eq]
        exact temp_ne_streaming (toString now)
      have hs : ((mkStreamingMessage st now).message_id !=
          "streaming-" ++ toString now) = false := by
        simp [mkStreamingMessage]
      rw [show ([mkUserMessage st message now, mkStreamingMessage st now].filter
          fun m => m.message_id != "streaming-" ++ toString now) =
            [mkUserMessage st message now] from by
        simp [List.filter, hu, hs]]

/-- C7 witness: the three parts of the theorem applied at concrete inputs —
a concrete error frame, concrete frame lists, and a concrete streamed send
that received two tokens before the error frame. -/
theorem claim7_witness :
    dispatchData true { type := "error", errorMsg := some "backend failed" } =
        [.errorCb "backend failed" none] ∧
      (runSendStream {} "hi" 3
          (([ "He", "llo" ].map fun t => Ev.chunk t false) ++ [Ev.errorCb "boom" none])
          none).messages =
        if strJoin ["He", "llo"] ≠ "" then
          ({} : HookState).messages ++ [mkUserMessage {} "hi" 3,
            { mkStreamingMessage {} 3 with
                isStreaming := false, content := strJoin ["He", "llo"] }]
        else ({} : HookState).messages ++ [mkUserMessage {} "hi" 3] :=
  ⟨claim7_theorem.1 { type := "error", errorMsg := some "backend failed" } rfl,
   claim7_theorem.2.2 {} "hi" 3 ["He", "llo"] "boom" none (by decide)
     (by intro m hm; simp at hm)⟩

/-! ## Progress display smoothing
(`src/src/components/chatbot/ProgressIndicator.tsx`)

The component is modelled as a timed transition system: prop updates arrive
at millisecond timestamps, `setTimeout` is a pending fire time, and the
effect body of lines 91-154 is `applyUpdate`.  Display changes are recorded
as `(time, triple)` trace entries. -/

/-- A `(status, stage, progress)` prop triple. -/
structure Triple where
  status : String
  stage : String
  progress : ℚ
deriving DecidableEq

/-- `progress >= 1.0 || stage === 'done'` (line 88). -/
def isComplete (u : Triple) : Bool :=
  (1 ≤ u.progress) || (u.stage = "done")

/-- `Math.abs`. -/
def qabs (q : ℚ) : ℚ := if q < 0 then -q else q

/-- The change test of lines 108-111 (progress compared with a 0.01
threshold). -/
def hasChanged (d u : Triple) : Bool :=
  (d.status != u.status) || (d.stage != u.stage) ||
    (qabs (d.progress - u.progress) > mkRat 1 100)

/-- `MIN_DISPLAY_DURATION` (line 6). -/
def MIN_DISPLAY_DURATION : Nat := 800

/-- The component state: displayed triple, `lastUpdateTimeRef`,
`pendingUpdateRef`, and the absolute fire time of the scheduled timeout. -/
structure PIState where
  displayed : Triple
  lastUpdate : Nat
  pending : Option Triple
  timerAt : Option Nat

/-- The timeout handler (lines 136-145): apply the pending update if one is
set, stamp `lastUpdateTimeRef` with the fire time, clear the refs.  Returns
the display change, if any. -/
def fireTimer (s : PIState) : PIState × Option (Nat × Triple) :=
  match s.timerAt, s.pending with
  | some ft, some p =>
    ({ displayed := p, lastUpdate := ft, pending := none, timerAt := none },
      some (ft, p))
  | some _, none => ({ s with timerAt := none }, none)
  | none, _ => (s, none)

/-- The effect body (lines 91-154) run at `now` for new props `u`: clear
any pending timeout; a terminal update displays immediately (without
touching `lastUpdateTimeRef`); an unchanged update does nothing further; an
update past the dwell displays immediately; otherwise it is scheduled for
`lastUpdate + 800`. -/
def applyUpdate (s : PIState) (now : Nat) (u : Triple) : PIState × Option (Nat × Triple) :=
  let s := { s with timerAt := none }
  if isComplete u then
    ({ s with displayed := u, pending := none },
      if u = s.displayed then none else some (now, u))
  else if hasChanged s.displayed u = false then
    (s, none)
  else if MIN_DISPLAY_DURATION ≤ now - s.lastUpdate then
    ({ s with displayed := u, lastUpdate := now, pending := none }, some (now, u))
  else
    ({ s with pending := some u, timerAt := some (s.lastUpdate + MIN_DISPLAY_DURATION) },
      none)

/-- One prop update at time `t`: a timer due at or before `t` fires first
(single-threaded event loop), then the effect runs. -/
def piStep (s : PIState) (t : Nat) (u : Triple) : PIState × List (Nat × Triple) :=
  let fired :=
    match s.timerAt with
    | some ft => if ft ≤ t then fireTimer s else (s, none)
    | none => (s, none)
  let applied := applyUpdate fired.1 t u
  (applied.1, fired.2.toList ++ applied.2.toList)

/-- Run a timestamped update sequence; any timer still pending after the
last update eventually fires and is part of the trace. -/
def piRun (s : PIState) : List (Nat × Triple) → PIState × List (Nat × Triple)
  | [] =>
    let fired := fireTimer s
    (fired.1, fired.2.toList)
  | (t, u) :: rest =>
    let stepped := piStep s t u
    let tail := piRun stepped.1 rest
    (tail.1, stepped.2 ++ tail.2)

/-- The display-change trace of a mounted component (initially displaying
`init` since time `t0`) fed the given updates. -/
def piTrace (init : Triple) (t0 : Nat) (updates : List (Nat × Triple)) :
    List (Nat × Triple) :=
  (piRun { displayed := init, lastUpdate := t0, pending := none, timerAt := none }
    updates).2

theorem applyUpdate_cases (s1 : PIState) (t : Nat) (u : Triple)
    (hu : isComplete u = false) (h1 : s1.lastUpdate ≤ t) :
    (applyUpdate s1 t u = ({ s1 with timerAt := none }, none) ∧
        hasChanged s1.displayed u = false) ∨
      (applyUpdate s1 t u =
          ({ s1 with timerAt := none, displayed := u, lastUpdate := t, pending := none },
            some (t, u)) ∧ s1.lastUpdate + 800 ≤ t) ∨
      (applyUpdate s1 t u =
          ({ s1 with
              timerAt := some (s1.lastUpdate + MIN_DISPLAY_DURATION)
              pending := some u }, none) ∧ t < s1.lastUpdate + 800) := by
  by_cases hch : hasChanged s1.displayed u = false
  · left
    refine ⟨?_, hch⟩
    simp [applyUpdate, hu, hch]
  · by_cases hd : MIN_DISPLAY_DURATION ≤ t - s1.lastUpdate
    · right; left
      constructor
      · simp [applyUpdate, hu, hch, hd]
      · have : MIN_DISPLAY_DURATION = 800 := rfl
        omega
    · right; right
      constructor
      · simp [applyUpdate, hu, hch, hd]
      · have : MIN_DISPLAY_DURATION = 800 := rfl
        omega

/-- The state right after the dwell timer fires with pending update `p`. -/
def firedState (s : PIState) (p : Triple) : PIState :=
  { displayed := p
    lastUpdate := s.lastUpdate + 800
    pending := none
    timerAt := none }

/-- The state right after an immediate (past-dwell) display of `u` at `t`. -/
def immState (s1 : PIState) (u : Triple) (t : Nat) : PIState :=
  { s1 with
    timerAt := none
    displayed := u
    lastUpdate := t
    pending := none }

/-- The state right after scheduling `u` on the dwell timer. -/
def schedState (s1 : PIState) (u : Triple) : PIState :=
  { s1 with
    timerAt := some (s1.lastUpdate + MIN_DISPLAY_DURATION)
    pending := some u }

theorem piRun_gap : ∀ (updates : List (Nat × Triple)) (s : PIState) (floor : Nat),
    List.Chain (· ≤ ·) floor (updates.map Prod.fst) →
    (∀ p ∈ updates, isComplete p.2 = false) →
    s.lastUpdate ≤ floor →
    (s.timerAt = none ∨ s.timerAt = some (s.lastUpdate + 800)) →
    List.Chain (fun a b => a + 800 ≤ b) s.lastUpdate
      ((piRun s updates).2.map Prod.fst) := by
  intro updates
  induction updates with
  | nil =>
    intro s floor _ _ _ hinv
    rcases hinv with hnone | hsome
    · show List.Chain _ s.lastUpdate (((fireTimer s).2.toList).map Prod.fst)
      rw [show fireTimer s = (s, none) from by simp [fireTimer, hnone]]
      exact List.Chain.nil
    · cases hp : s.pending with
      | none =>
        show List.Chain _ s.lastUpdate (((fireTimer s).2.toList).map Prod.fst)
        rw [show fireTimer s = ({ s with timerAt := none }, none) from by
          simp [fireTimer, hsome, hp]]
        exact List.Chain.nil
      | some p =>
        show List.Chain _ s.lastUpdate (((fireTimer s).2.toList).map Prod.fst)
        rw [show fireTimer s = (firedState s p, some (s.lastUpdate + 800, p)) from by
          simp [fireTimer, firedState, hsome, hp]]
        show List.Chain _ s.lastUpdate [s.lastUpdate + 800]
        rw [List.chain_cons]
        exact ⟨le_refl _, List.Chain.nil⟩
  | cons tu rest ih =>
    obtain ⟨t, u⟩ := tu
    intro s floor hchain hnt hlu hinv
    rw [List.map_cons, List.chain_cons] at hchain
    obtain ⟨hft, hchain2⟩ := hchain
    have hu : isComplete u = false := hnt (t, u) (List.mem_cons_self _ _)
    have hnt2 : ∀ p ∈ rest, isComplete p.2 = false := fun p hp =>
      hnt p (List.mem_cons_of_mem _ hp)
    have hlut : s.lastUpdate ≤ t := le_trans hlu hft
    have hcont : ∀ (s1 : PIState), s1.lastUpdate ≤ t →
        List.Chain (fun a b => a + 800 ≤ b) s1.lastUpdate
          (((applyUpdate s1 t u).2.toList ++ (piRun (applyUpdate s1 t u).1 rest).2).map
            Prod.fst) := by
      intro s1 hlut1
      rcases applyUpdate_cases s1 t u hu hlut1 with ⟨heq, _⟩ | ⟨heq, hge⟩ | ⟨heq, hlt2⟩
      · rw [heq]
        show List.Chain _ s1.lastUpdate
          ((piRun { s1 with timerAt := none } rest).2.map Prod.fst)
        exact ih { s1 with timerAt := none } t hchain2 hnt2 hlut1 (Or.inl rfl)
      · rw [heq]
        show List.Chain _ s1.lastUpdate
          (t :: ((piRun (immState s1 u t) rest).2.map Prod.fst))
        rw [List.chain_cons]
        exact ⟨hge, ih (immState s1 u t) t hchain2 hnt2 (le_refl t) (Or.inl rfl)⟩
      · rw [heq]
        show List.Chain _ s1.lastUpdate
          ((piRun (schedState s1 u) rest).2.map Prod.fst)
        exact ih (schedState s1 u) t hchain2 hnt2 hlut1 (Or.inr rfl)
    show List.Chain (fun a b => a + 800 ≤ b) s.lastUpdate
      (((piStep s t u).2 ++ (piRun (piStep s t u).1 rest).2).map Prod.fst)
    rcases hinv with hnone | hsome
    · rw [show piStep s t u = ((applyUpdate s t u).1,
          [] ++ (applyUpdate s t u).2.toList) from by simp [piStep, hnone]]
      simp only [List.nil_append]
      exact hcont s hlut
    · by_cases hdue : s.lastUpdate + 800 ≤ t
      · cases hp : s.pending with
        | some p =>
          rw [show piStep s t u = ((applyUpdate (firedState s p) t u).1,
              [(s.lastUpdate + 800, p)] ++
                (applyUpdate (firedState s p) t u).2.toList) from by
            simp [piStep, hsome, hdue, fireTimer, firedState, hp]]
          show List.Chain _ s.lastUpdate ((s.lastUpdate + 800) ::
            (((applyUpdate (firedState s p) t u).2.toList ++
              (piRun (applyUpdate (firedState s p) t u).1 rest).2).map Prod.fst))
          rw [List.chain_cons]
          exact ⟨le_refl _, hcont (firedState s p) hdue⟩
        | none =>
          rw [show piStep s t u = ((applyUpdate { s with timerAt := none } t u).1,
              [] ++ (applyUpdate { s with timerAt := none } t u).2.toList) from by
            simp [piStep, hsome, hdue, fireTimer, hp]]
          simp only [List.nil_append]
          exact hcont { s with timerAt := none } hlut
      · rw [show piStep s t u = ((applyUpdate s t u).1,
            [] ++ (applyUpdate s t u).2.toList) from by simp [piStep, hsome, hdue]]
        simp only [List.nil_append]
        exact hcont s hlut

theorem piStep_terminal (s : PIState) (t : Nat) (u : Triple)
    (hu : isComplete u = true) : ((piStep s t u).1).displayed = u := by
  have happ : ∀ s1 : PIState, ((applyUpdate s1 t u).1).displayed = u := by
    intro s1
    simp [applyUpdate, hu]
  cases htm : s.timerAt with
  | none =>
    rw [show (piStep s t u).1 = (applyUpdate s t u).1 from by simp [piStep, htm]]
    exact happ s
  | some ft =>
    by_cases hle : ft ≤ t
    · cases hp : s.pending with
      | some p =>
        rw [show (piStep s t u).1 = (applyUpdate
            { displayed := p, lastUpdate := ft, pending := none, timerAt := none }
            t u).1 from by simp [piStep, htm, hle, fireTimer, hp]]
        exact happ _
      | none =>
        rw [show (piStep s t u).1 = (applyUpdate { s with timerAt := none } t u).1 from by
          simp [piStep, htm, hle, fireTimer, hp]]
        exact happ _
    · rw [show (piStep s t u).1 = (applyUpdate s t u).1 from by simp [piStep, htm, hle]]
      exact happ s

/-! ### Claim C8 -/

/-- The initially displayed triple of the C8 counterexample. -/
def c8A : Triple := { status := "Initializing...", stage := "routing", progress := 0 }

/-- A terminal triple (stage `done`, progress 1). -/
def c8T : Triple := { status := "Complete", stage := "done", progress := 1 }

/-- A non-terminal triple. -/
def c8B : Triple := { status := "Composing response", stage := "compose", progress := mkRat 1 2 }

/-- C8 counterexample: the terminal display path never stamps
`lastUpdateTimeRef`, so after a terminal update displayed at t=900 a
non-terminal update arriving at t=950 — 50 ms after the currently displayed
update — is displayed immediately at t=950, earlier than 900+800 ms after
the previous displayed change. -/
theorem claim8_counterexample :
    piTrace c8A 0 [(900, c8T), (950, c8B)] = [(900, c8T), (950, c8B)] ∧
      isComplete c8B = false ∧ 950 < 900 + 800 := by
  refine ⟨?_, by decide, by norm_num⟩
  rfl

/-- C8 (amended): a terminal update (progress ≥ 1.0 or stage `done`) is
displayed immediately on arrival, but it does not reset the dwell clock, so
a later non-terminal update may become visible sooner than 800 ms after a
terminal display change; for any sequence consisting only of non-terminal
updates (times nondecreasing from mount), consecutive display changes —
including the one the dwell timer performs for the latest pending update —
are always at least 800 ms apart. -/
theorem claim8_theorem :
    (∀ (s : PIState) (t : Nat) (u : Triple), isComplete u = true →
        ((piStep s t u).1).displayed = u) ∧
      (∀ (init : Triple) (t0 : Nat) (updates : List (Nat × Triple)),
        List.Chain (· ≤ ·) t0 (updates.map Prod.fst) →
        (∀ p ∈ updates, isComplete p.2 = false) →
        List.Chain (fun a b => a + 800 ≤ b) t0
          ((piTrace init t0 updates).map Prod.fst)) := by
  constructor
  · exact piStep_terminal
  · intro init t0 updates hchain hnt
    exact piRun_gap updates
      { displayed := init, lastUpdate := t0, pending := none, timerAt := none }
      t0 hchain hnt (le_refl t0) (Or.inl rfl)

/-- C8 witness: the amended theorem applied at concrete inputs — a terminal
update at t=500 displays immediately, and a single early non-terminal update
produces a display-change trace whose entries sit at least 800 ms apart. -/
theorem claim8_witness :
    ((piStep { displayed := c8A, lastUpdate := 0, pending := none, timerAt := none }
        500 c8T).1).displayed = c8T ∧
      List.Chain (fun a b => a + 800 ≤ b) 0
        ((piTrace c8A 0 [(100, c8B)]).map Prod.fst) :=
  ⟨claim8_theorem.1 _ 500 c8T (by decide),
   claim8_theorem.2 c8A 0 [(100, c8B)]
     (List.Chain.cons (by norm_num) List.Chain.nil) (by decide)⟩

end Hypeon
